import Mathlib

/-!
Verification of the layout engine of the personal-website repository
(src/pages/index.tsx).  The source file contains two variants of the
layout algorithm:

* a tiered free-rectangle packer with a shelf fill-in pass
  (lines 147-420): tier multipliers from square-root-normalized playtime,
  a reserved header strip, best-rect choice scored by `y*W + x` with
  exact-fit bonuses, guillotine splits, containment pruning, and a
  second pass that row-fills residual free rectangles;
* a naive best-area-fit packer (lines 1386-1465): items sized linearly
  in playtime, scored by leftover area, split into a full-height right
  remainder and a bottom remainder.

Coordinates and sizes are modelled as exact rationals (the source uses
JS numbers); the square-root / sine based quantities of the size model
are modelled over the reals.  Loops that mutate arrays in place are
modelled by explicit state threading.  JS `Array.prototype.sort` with a
numeric comparator is modelled by the stable `List.mergeSort`.
`Array.prototype.indexOf` / `splice` removal of an element found by
scanning is modelled by removal of the first structurally equal
element, which the scans below always find first.
-/

namespace Packer

/-- `SteamGame` record (src/pages/index.tsx lines 17-21). -/
structure SteamGame where
  appid : Int
  name : String
  playtime_forever : Int
deriving DecidableEq, Repr

/-- Free/placed rectangle `Rect` (line 211 and lines 1264-1269). -/
structure Rect where
  x : ℚ
  y : ℚ
  width : ℚ
  height : ℚ
deriving DecidableEq, Repr

/-- `LayoutGame` output record (lines 24-30); the derived `albumUrl`
string is presentation data keyed on `appid` and is omitted. -/
structure LayoutGame where
  game : SteamGame
  x : ℚ
  y : ℚ
  width : ℚ
  height : ℚ
deriving DecidableEq, Repr

/-- An element of the `prepared` list of the tiered variant
(lines 220-226): the game, its tier multiplier, its derived width and
height, and the id-seeded jitter value `rnd`.  The jitter is kept as an
abstract rational parameter here; the source computes it as
`Math.abs(Math.sin(appid * 1337.123))`, a pure function of `appid`. -/
structure PrepItem where
  game : SteamGame
  mult : Int
  width : ℚ
  height : ℚ
  rnd : ℚ
deriving DecidableEq, Repr

/-- The rectangle covered by a placed item. -/
def LayoutGame.rect (g : LayoutGame) : Rect :=
  ⟨g.x, g.y, g.width, g.height⟩

/-- Open interior of a rectangle, as a set of points. -/
def Rect.interior (r : Rect) : Set (ℚ × ℚ) :=
  {p | r.x < p.1 ∧ p.1 < r.x + r.width ∧ r.y < p.2 ∧ p.2 < r.y + r.height}

/-- Two rectangles have non-intersecting interiors. -/
def RectDisj (a b : Rect) : Prop :=
  ∀ p : ℚ × ℚ, p ∈ a.interior → p ∈ b.interior → False

/-- Coordinatewise containment of rectangle `a` inside rectangle `b`. -/
def SubRect (a b : Rect) : Prop :=
  b.x ≤ a.x ∧ b.y ≤ a.y ∧ a.x + a.width ≤ b.x + b.width ∧
    a.y + a.height ≤ b.y + b.height

/-- Rectangle `r` lies inside the canvas `[0, W] × [lo, H]`. -/
def InBox (lo W H : ℚ) (r : Rect) : Prop :=
  0 ≤ r.x ∧ lo ≤ r.y ∧ r.x + r.width ≤ W ∧ r.y + r.height ≤ H

/-- Containment test on free rectangles (lines 229-230):
`a` contains `b`. -/
def containsRect (a b : Rect) : Bool :=
  decide (a.x ≤ b.x) && decide (a.y ≤ b.y) &&
    decide (b.x + b.width ≤ a.x + a.width) &&
    decide (b.y + b.height ≤ a.y + a.height)

/-- One left-to-right sweep of `pruneFreeRects` (lines 233-246): the
element under scrutiny is dropped when some other current element
contains it; `kept` holds the already-scanned survivors. -/
def pruneGo (kept : List Rect) : List Rect → List Rect
  | [] => kept
  | c :: rest =>
    if (kept ++ rest).any (fun r => containsRect r c) then pruneGo kept rest
    else pruneGo (kept ++ [c]) rest

/-- `pruneFreeRects` (lines 233-246). -/
def pruneFreeRects (l : List Rect) : List Rect :=
  pruneGo [] l

/-- `addFreeRect` (lines 248-251): rectangles of non-positive width or
height are discarded. -/
def addFreeRect (l : List Rect) (r : Rect) : List Rect :=
  if r.width ≤ 0 ∨ r.height ≤ 0 then l else l ++ [r]

/-- Score used by `chooseBestRect` (line 262): top first, then left,
with large bonuses for exact width/height matches. -/
def rectScore (W w h : ℚ) (fr : Rect) : ℚ :=
  fr.y * W + fr.x +
    (if fr.width = w ∧ fr.height = h then -1000000
     else if fr.width = w ∨ fr.height = h then -500000 else 0)

/-- Loop body of `chooseBestRect` (lines 257-268); the `none`
accumulator plays the role of `bestScore = +Infinity`. -/
def chooseStep (W w h : ℚ) (best : Option Rect) (fr : Rect) : Option Rect :=
  match best with
  | none => if w ≤ fr.width ∧ h ≤ fr.height then some fr else none
  | some b =>
    if w ≤ fr.width ∧ h ≤ fr.height then
      if rectScore W w h fr < rectScore W w h b then some fr else some b
    else some b

/-- `chooseBestRect` (lines 254-270): scan all free rectangles, keep
the eligible one of strictly smallest score (the first such wins). -/
def chooseBestRect (W : ℚ) (free : List Rect) (w h : ℚ) : Option Rect :=
  free.foldl (chooseStep W w h) none

/-- `splitFreeRect` (lines 273-294): remove the consumed rectangle,
push the right and bottom remainders (filtered by `addFreeRect`), then
prune contained rectangles. -/
def splitFreeRect (free : List Rect) (fr placed : Rect) : List Rect :=
  let rest := free.erase fr
  let right : Rect :=
    ⟨placed.x + placed.width, fr.y, fr.width - placed.width, placed.height⟩
  let bottom : Rect :=
    ⟨fr.x, placed.y + placed.height, fr.width, fr.height - placed.height⟩
  pruneFreeRects (addFreeRect (addFreeRect rest right) bottom)

/-- State of the first (free-rectangle) phase. -/
structure Phase1St where
  free : List Rect
  results : List LayoutGame
  overflow : List PrepItem
deriving Repr

/-- One iteration of the phase-1 loop (lines 305-323). -/
def phase1Step (W : ℚ) (st : Phase1St) (it : PrepItem) : Phase1St :=
  match chooseBestRect W st.free it.width it.height with
  | none => { st with overflow := st.overflow ++ [it] }
  | some target =>
    let placed : Rect := ⟨target.x, target.y, it.width, it.height⟩
    { free := splitFreeRect st.free target placed,
      results := st.results ++ [⟨it.game, target.x, target.y, it.width, it.height⟩],
      overflow := st.overflow }

/-- Phase 1: place each item of `items` in order (lines 305-323). -/
def phase1 (W : ℚ) (items : List PrepItem) (st : Phase1St) : Phase1St :=
  items.foldl (phase1Step W) st

/-- Accumulator update of the scan of lines 356-365; the `none`
accumulator plays the role of `foundWidth = +Infinity`. -/
def findMinUpd (sW rH : ℚ) (i : Nat) (it : PrepItem) (best : Option (Nat × ℚ)) :
    Option (Nat × ℚ) :=
  match best with
  | none => if it.width ≤ sW ∧ it.height ≤ rH then some (i, it.width) else none
  | some (k, bw) =>
    if it.width ≤ sW ∧ it.height ≤ rH ∧ it.width < bw then some (i, it.width)
    else some (k, bw)

/-- The scan of lines 356-365: first index of an item of strictly
minimal width among those fitting the remaining shelf width and the row
height; the accumulator mirrors `(foundIndex, foundWidth)`. -/
def findMinWidthGo (sW rH : ℚ) : List PrepItem → Nat → Option (Nat × ℚ) → Option (Nat × ℚ)
  | [], _, best => best
  | it :: rest, i, best =>
    findMinWidthGo sW rH rest (i + 1) (findMinUpd sW rH i it best)

/-- Entry point of the minimal-width scan (lines 353-365). -/
def findMinWidth (l : List PrepItem) (sW rH : ℚ) : Option (Nat × ℚ) :=
  findMinWidthGo sW rH l 0 none

/-- The inner row loop of `fillRectWithShelf` (lines 352-389): place
the narrowest fitting item, advance the cursor, and stop when nothing
fits or the remaining width drops below `bw` (`baseUnitWidth`).
Returns the newly placed games, the remaining overflow items, and the
final `localX`, `spaceW`, `rowMaxH`. -/
def fillRow (bw rowHeight y : ℚ) (remaining : List PrepItem) (localX spaceW rowMaxH : ℚ) :
    List LayoutGame × List PrepItem × ℚ × ℚ × ℚ :=
  match findMinWidth remaining spaceW rowHeight with
  | none => ([], remaining, localX, spaceW, rowMaxH)
  | some (i, _) =>
    match h : remaining[i]? with
    | none => ([], remaining, localX, spaceW, rowMaxH)
    | some it =>
      let g : LayoutGame := ⟨it.game, localX, y, it.width, it.height⟩
      let remaining' := remaining.eraseIdx i
      let localX' := localX + it.width
      let spaceW' := spaceW - it.width
      let rowMaxH' := max rowMaxH it.height
      if spaceW' < bw then ([g], remaining', localX', spaceW', rowMaxH')
      else
        let out := fillRow bw rowHeight y remaining' localX' spaceW' rowMaxH'
        (g :: out.1, out.2.1, out.2.2.1, out.2.2.2.1, out.2.2.2.2)
termination_by remaining.length
decreasing_by
  have hi : i < remaining.length := (List.getElem?_eq_some_iff.mp h).1
  simp [List.length_eraseIdx, hi]
  omega

/-- The outer row loop of `fillRectWithShelf` (lines 339-405).  Each
iteration that places at least one item removes it from `remaining`,
so `remaining.length` bounds the number of iterations; `fuel` makes
this bound structural and is never exhausted when initialized to
`remaining.length + 1`. -/
def shelfLoop (bw bh : ℚ) :
    Nat → Rect → List PrepItem → List Rect → List LayoutGame →
      Rect × List PrepItem × List Rect × List LayoutGame
  | 0, rect, remaining, free, results => (rect, remaining, free, results)
  | fuel + 1, rect, remaining, free, results =>
    if rect.height < bh then (rect, remaining, free, results)
    else
      match remaining.filter
          (fun it => decide (it.height ≤ rect.height) && decide (it.width ≤ rect.width)) with
      | [] => (rect, remaining, free, results)
      | c :: cs =>
        let rowHeight := cs.foldl (fun m it => min m it.height) c.height
        let out := fillRow bw rowHeight rect.y remaining rect.x rect.width 0
        match out.1 with
        | [] => (rect, out.2.1, free, results)
        | ps =>
          let free' :=
            if 0 < out.2.2.2.1 then
              addFreeRect free ⟨out.2.2.1, rect.y, out.2.2.2.1, out.2.2.2.2⟩
            else free
          let rect' : Rect :=
            ⟨rect.x, rect.y + out.2.2.2.2, rect.width, rect.height - out.2.2.2.2⟩
          shelfLoop bw bh fuel rect' out.2.1 (pruneFreeRects free') (results ++ ps)

/-- `fillRectWithShelf` (lines 330-413): remove the target rectangle
from the global free set, row-fill it, and expose the unused bottom
part as a new free rectangle. -/
def fillRectWithShelf (bw bh : ℚ) (fr : Rect)
    (st : List Rect × List PrepItem × List LayoutGame) :
    List Rect × List PrepItem × List LayoutGame :=
  let free₀ := st.1.erase fr
  let out := shelfLoop bw bh (st.2.1.length + 1) fr st.2.1 free₀ st.2.2
  let rect' := out.1
  let free' :=
    if 0 < rect'.height ∧ 0 < rect'.width then
      pruneFreeRects (addFreeRect out.2.2.1 rect')
    else out.2.2.1
  (free', out.2.1, out.2.2.2)

/-- Phase 2 (lines 415-417): run `fillRectWithShelf` over a snapshot
of the free-rectangle list. -/
def phase2 (bw bh : ℚ) (snapshot : List Rect)
    (st : List Rect × List PrepItem × List LayoutGame) :
    List Rect × List PrepItem × List LayoutGame :=
  snapshot.foldl (fun acc fr => fillRectWithShelf bw bh fr acc) st

/-- Reserved header strip height (line 213):
`Math.max(60, Math.round(Math.min(LAYOUT_HEIGHT * 0.06, 100)))`. -/
def headerInfoHeight (H : ℚ) : ℚ :=
  max 60 ((round (min (6 / 100 * H) 100) : ℤ) : ℚ)

/-- Phase-1 ordering key (lines 297-302): mostly-descending size with
a small deterministic jitter (`RANDOM_JITTER = 0.2`). -/
def sortKey (it : PrepItem) : ℚ :=
  -(it.mult : ℚ) + (it.rnd - 1 / 2) * (1 / 5)

/-- The tiered layout pipeline from the prepared item list on
(lines 211-419): initial free rectangle below the header strip,
jittered mostly-descending phase-1 order, guillotine placement with
overflow, then the shelf fill-in pass over the sorted residual free
rectangles.  Returns the placed games and the items never placed
(silently dropped by the source). -/
def tieredLayout (W H bw bh : ℚ) (prepared : List PrepItem) :
    List LayoutGame × List PrepItem :=
  let header := headerInfoHeight H
  let initFree : List Rect := [⟨0, header, W, max 0 (H - header)⟩]
  let remainingDesc := prepared.mergeSort (fun a b => decide (sortKey a ≤ sortKey b))
  let st := phase1 W remainingDesc ⟨initFree, [], []⟩
  let sortedFree :=
    st.free.mergeSort (fun a b => decide (a.y < b.y ∨ (a.y = b.y ∧ a.x ≤ b.x)))
  let remainingAsc := st.overflow.mergeSort (fun a b => decide (a.mult ≤ b.mult))
  let out := phase2 bw bh sortedFree (sortedFree, remainingAsc, st.results)
  (out.2.2, out.2.1)

/-- A game with the linearly derived dimensions of the naive variant
(lines 1394-1400). -/
structure SizedGame where
  game : SteamGame
  width : ℚ
  height : ℚ
deriving DecidableEq, Repr

/-- Best-area-fit score of the naive variant (line 1415):
`freeRect.width * freeRect.height - game.width * game.height`. -/
def naiveScore (w h : ℚ) (fr : Rect) : ℚ :=
  fr.width * fr.height - w * h

/-- Accumulator update of the naive best-area-fit scan
(lines 1412-1427); the `none` accumulator plays the role of
`bestScore = Infinity`. -/
def naiveUpd (w h : ℚ) (i : Nat) (fr : Rect) (best : Option (Nat × Rect)) :
    Option (Nat × Rect) :=
  match best with
  | none => if w ≤ fr.width ∧ h ≤ fr.height then some (i, fr) else none
  | some (k, b) =>
    if w ≤ fr.width ∧ h ≤ fr.height ∧ naiveScore w h fr < naiveScore w h b then
      some (i, fr)
    else some (k, b)

/-- Best-area-fit scan of the naive variant (lines 1407-1427): return
the index of the first eligible free rectangle of strictly minimal
leftover area, together with that rectangle. -/
def naiveChooseGo (w h : ℚ) : List Rect → Nat → Option (Nat × Rect) → Option (Nat × Rect)
  | [], _, best => best
  | fr :: rest, i, best =>
    naiveChooseGo w h rest (i + 1) (naiveUpd w h i fr best)

/-- Entry point of the naive best-area-fit scan. -/
def naiveChoose (free : List Rect) (w h : ℚ) : Option (Nat × Rect) :=
  naiveChooseGo w h free 0 none

/-- The split of the naive variant (lines 1436-1460): a full-height
right remainder when the item is narrower, and a bottom remainder whose
width is the item width when a right remainder exists, else the full
width.  There is no zero-area guard. -/
def naiveSplit (toSplit : Rect) (nodeW nodeH : ℚ) : List Rect :=
  (if nodeW < toSplit.width then
    [⟨toSplit.x + nodeW, toSplit.y, toSplit.width - nodeW, toSplit.height⟩]
   else []) ++
  (if nodeH < toSplit.height then
    [⟨toSplit.x, toSplit.y + nodeH,
      if nodeW < toSplit.width then nodeW else toSplit.width,
      toSplit.height - nodeH⟩]
   else [])

/-- One iteration of the naive placement loop (lines 1407-1462): items
with no eligible free rectangle are silently skipped. -/
def naiveStep (st : List Rect × List LayoutGame) (g : SizedGame) :
    List Rect × List LayoutGame :=
  match naiveChoose st.1 g.width g.height with
  | none => st
  | some (i, fr) =>
    (st.1.eraseIdx i ++ naiveSplit fr g.width g.height,
     st.2 ++ [⟨g.game, fr.x, fr.y, g.width, g.height⟩])

/-- The naive packer (lines 1404-1464): single free rectangle spanning
the whole canvas, items processed in the given order. -/
def naivePack (items : List SizedGame) (W H : ℚ) : List LayoutGame :=
  (items.foldl naiveStep ([⟨0, 0, W, H⟩], [])).2

/-- The naive layout (lines 1386-1465): sort by descending height, then
pack. -/
def naiveLayout (items : List SizedGame) (W H : ℚ) : List LayoutGame :=
  if items = [] then []
  else naivePack (items.mergeSort (fun a b => decide (b.height ≤ a.height))) W H

/-- Height of the linear size model of the naive variant
(lines 1394-1398): `area = playtime/100*20`,
`height = sqrt(area / (2/3))`. -/
noncomputable def linearHeight (playtime : ℚ) : ℝ :=
  Real.sqrt (((playtime / 100 * 20 : ℚ) : ℝ) / (2 / 3))

/-- Width of the linear size model (line 1398): `width = height * 2/3`. -/
noncomputable def linearWidth (playtime : ℚ) : ℝ :=
  linearHeight playtime * (2 / 3)

/-- Area produced by the linear size model. -/
noncomputable def linearArea (playtime : ℚ) : ℝ :=
  linearWidth playtime * linearHeight playtime

/-- Tier multiplier of the tiered variant (lines 163-180): square-root
normalization against the maximal playtime, quantized to at most
`TIER_MAX = 8` levels, forced to at least 2 for games with 10+ hours
and to exactly 1 otherwise. -/
noncomputable def tierMult (maxTime : Int) (playtime : Int) : Int :=
  let sqrtVal := Real.sqrt ((max playtime 1 : Int) : ℝ)
  let sqrtMax := Real.sqrt ((maxTime : Int) : ℝ)
  let normalized := sqrtVal / sqrtMax
  let mult := max 1 (round (normalized * 8))
  if 10 ≤ (playtime : ℚ) / 60 then max mult 2 else 1

/-- Quantized base cell (lines 206-209) as a function of `gridCols`:
`baseUnitWidth = max(1, floor(W / gridCols))`,
`baseUnitHeight = max(1, round(baseUnitWidth / (2/3)))`. -/
def baseUnitWH (W : ℚ) (gridCols : Int) : Int × Int :=
  let buw : Int := max 1 ⌊W / (gridCols : ℚ)⌋
  (buw, max 1 (round ((buw : ℚ) * 3 / 2)))

/-- The id-seeded ordering jitter (lines 219-225):
`Math.abs(Math.sin(appid * 1337.123))` with `RANDOM_SEED = 1337.123`,
a pure function of the appid. -/
noncomputable def rndJitter (appid : Int) : ℝ :=
  |Real.sin ((appid : ℝ) * ((1337123 : ℝ) / 1000))|

/-- `calculateCanvasDimensions` (lines 86-106 and 1326-1345). -/
noncomputable def calculateCanvasDimensions (gameCount : Nat) : ℝ × ℝ :=
  if gameCount = 0 then (1080, 1920)
  else
    let baseArea : ℝ := 1080 * 1920
    let totalArea : ℝ :=
      baseArea + (if 10 < gameCount then ((gameCount : ℝ) - 10) * 50000 else 0)
    let width := Real.sqrt (totalArea * (9 / 16))
    let height := width / (9 / 16)
    (max 1080 (min 4320 ((round (width / 100) : ℤ) * 100 : ℝ)),
     max 1920 (min 7680 ((round (height / 100) : ℤ) * 100 : ℝ)))

/-- Games of a placed-item list (used to state conservation of ids). -/
def gamesOfLayout (l : List LayoutGame) : List SteamGame :=
  l.map (fun g => g.game)

/-- Games of a prepared-item list. -/
def gamesOfPrep (l : List PrepItem) : List SteamGame :=
  l.map (fun x => x.game)

/-- Packer invariant: free rectangles are pairwise interior-disjoint,
disjoint from every placed rectangle, placed rectangles are pairwise
interior-disjoint, and everything lies inside `[0, W] × [lo, H]`. -/
def PackInv (lo W H : ℚ) (free : List Rect) (placed : List LayoutGame) : Prop :=
  free.Pairwise RectDisj ∧
  (∀ f ∈ free, ∀ g ∈ placed, RectDisj f g.rect) ∧
  List.Pairwise (fun a b => RectDisj a.rect b.rect) placed ∧
  (∀ f ∈ free, InBox lo W H f) ∧
  (∀ g ∈ placed, InBox lo W H g.rect)

/-- Specification predicate for one row of the shelf pass: ids are
conserved, leftover items come from the input, the cursor only moves
right, the row height accumulator only grows, every placed game sits in
the band `[localX, localX+spaceW] × [y, y+rowMaxH]`, and placed games
are pairwise interior-disjoint. -/
def FillRowSpec (rowHeight y localX spaceW rowMaxH : ℚ) (remaining : List PrepItem)
    (out : List LayoutGame × List PrepItem × ℚ × ℚ × ℚ) : Prop :=
  (gamesOfLayout out.1 ++ gamesOfPrep out.2.1).Perm (gamesOfPrep remaining) ∧
  (∀ x ∈ out.2.1, x ∈ remaining) ∧
  localX + spaceW = out.2.2.1 + out.2.2.2.1 ∧
  localX ≤ out.2.2.1 ∧
  rowMaxH ≤ out.2.2.2.2 ∧
  (∀ g ∈ out.1,
    localX ≤ g.x ∧ g.x + g.width ≤ localX + spaceW ∧ g.y = y ∧
      0 ≤ g.width ∧ 0 ≤ g.height ∧ g.height ≤ rowHeight ∧ g.height ≤ out.2.2.2.2) ∧
  List.Pairwise (fun a b => RectDisj a.rect b.rect) out.1 ∧
  (out.1 = [] → out.2.1 = remaining)

/-- Specification predicate for the shelf loop on one rectangle: the
newly placed games extend the result list, conserve ids with the
leftover items, stay inside the target rectangle, and are pairwise
interior-disjoint. -/
def ShelfSpec (rect : Rect) (remaining : List PrepItem) (results : List LayoutGame)
    (out : Rect × List PrepItem × List Rect × List LayoutGame) : Prop :=
  (∃ new : List LayoutGame,
    out.2.2.2 = results ++ new ∧
    (gamesOfLayout new ++ gamesOfPrep out.2.1).Perm (gamesOfPrep remaining) ∧
    (∀ g ∈ new, SubRect g.rect rect ∧ 0 ≤ g.width ∧ 0 ≤ g.height) ∧
    List.Pairwise (fun a b => RectDisj a.rect b.rect) new) ∧
  (∀ x ∈ out.2.1, x ∈ remaining)

/-! ### Geometry lemmas -/

theorem rectDisj_symm {a b : Rect} (h : RectDisj a b) : RectDisj b a :=
  fun p hb ha => h p ha hb

theorem rectDisj_symmetric : Symmetric RectDisj :=
  fun _ _ h => rectDisj_symm h

theorem rectDisj_of_right_le {a b : Rect} (h : a.x + a.width ≤ b.x) : RectDisj a b := by
  intro p hpa hpb
  rcases hpa with ⟨_, ha2, _, _⟩
  rcases hpb with ⟨hb1, _, _, _⟩
  linarith

theorem rectDisj_of_below_le {a b : Rect} (h : a.y + a.height ≤ b.y) : RectDisj a b := by
  intro p hpa hpb
  rcases hpa with ⟨_, _, _, ha4⟩
  rcases hpb with ⟨_, _, hb3, _⟩
  linarith

theorem subRect_refl (a : Rect) : SubRect a a :=
  ⟨le_refl _, le_refl _, le_refl _, le_refl _⟩

theorem subRect_trans {a b c : Rect} (h1 : SubRect a b) (h2 : SubRect b c) : SubRect a c := by
  obtain ⟨p1, p2, p3, p4⟩ := h1
  obtain ⟨q1, q2, q3, q4⟩ := h2
  exact ⟨le_trans q1 p1, le_trans q2 p2, le_trans p3 q3, le_trans p4 q4⟩

theorem interior_subset_of_subRect {a b : Rect} (h : SubRect a b) :
    a.interior ⊆ b.interior := by
  intro p hp
  obtain ⟨h1, h2, h3, h4⟩ := h
  obtain ⟨k1, k2, k3, k4⟩ := hp
  exact ⟨lt_of_le_of_lt h1 k1, lt_of_lt_of_le k2 h3, lt_of_le_of_lt h2 k3, lt_of_lt_of_le k4 h4⟩

theorem rectDisj_mono {a b a₀ b₀ : Rect} (ha : SubRect a a₀) (hb : SubRect b b₀)
    (h : RectDisj a₀ b₀) : RectDisj a b :=
  fun p hpa hpb =>
    h p (interior_subset_of_subRect ha hpa) (interior_subset_of_subRect hb hpb)

theorem rectDisj_mono_left {a a₀ b : Rect} (ha : SubRect a a₀) (h : RectDisj a₀ b) :
    RectDisj a b :=
  rectDisj_mono ha (subRect_refl b) h

theorem rectDisj_mono_right {a b b₀ : Rect} (hb : SubRect b b₀) (h : RectDisj a b₀) :
    RectDisj a b :=
  rectDisj_mono (subRect_refl a) hb h

theorem inBox_of_subRect {lo W H : ℚ} {a b : Rect} (h : SubRect a b) (hb : InBox lo W H b) :
    InBox lo W H a := by
  obtain ⟨h1, h2, h3, h4⟩ := h
  obtain ⟨k1, k2, k3, k4⟩ := hb
  exact ⟨le_trans k1 h1, le_trans k2 h2, le_trans h3 k3, le_trans h4 k4⟩

/-! ### Free-set operation lemmas -/

theorem pruneGo_sublist (rest : List Rect) : ∀ kept : List Rect,
    List.Sublist (pruneGo kept rest) (kept ++ rest) := by
  induction rest with
  | nil =>
    intro kept
    simpa [pruneGo] using List.Sublist.refl kept
  | cons c rest ih =>
    intro kept
    simp only [pruneGo]
    split
    · exact (ih kept).trans
        ((List.append_sublist_append_left kept).mpr (List.sublist_cons_self c rest))
    · have h2 := ih (kept ++ [c])
      simpa [List.append_assoc] using h2

theorem pruneFreeRects_sublist (l : List Rect) :
    List.Sublist (pruneFreeRects l) l := by
  simpa [pruneFreeRects] using pruneGo_sublist l []

theorem mem_of_mem_pruneFreeRects {l : List Rect} {r : Rect}
    (h : r ∈ pruneFreeRects l) : r ∈ l :=
  (pruneFreeRects_sublist l).mem h

theorem pairwise_pruneFreeRects {R : Rect → Rect → Prop} {l : List Rect}
    (h : l.Pairwise R) : (pruneFreeRects l).Pairwise R :=
  h.sublist (pruneFreeRects_sublist l)

theorem mem_addFreeRect {l : List Rect} {r r' : Rect} (h : r' ∈ addFreeRect l r) :
    r' ∈ l ∨ (r' = r ∧ 0 < r.width ∧ 0 < r.height) := by
  unfold addFreeRect at h
  split at h
  · exact Or.inl h
  · rename_i hc
    push_neg at hc
    rcases List.mem_append.mp h with h1 | h1
    · exact Or.inl h1
    · exact Or.inr ⟨by simpa using h1, hc.1, hc.2⟩

theorem pairwise_addFreeRect {R : Rect → Rect → Prop} {l : List Rect} {r : Rect}
    (hl : l.Pairwise R) (hr : ∀ a ∈ l, R a r) : (addFreeRect l r).Pairwise R := by
  unfold addFreeRect
  split
  · exact hl
  · exact List.pairwise_append.mpr ⟨hl, List.pairwise_singleton _ _, by simpa using hr⟩

theorem rel_of_pairwise_erase {R : Rect → Rect → Prop} (hS : Symmetric R)
    {l : List Rect} {a : Rect} (hp : l.Pairwise R) (ha : a ∈ l) :
    ∀ b ∈ l.erase a, R a b := by
  intro b hb
  have hperm := List.perm_cons_erase ha
  have hp2 : (a :: l.erase a).Pairwise R :=
    (hperm.pairwise_iff (fun hab => hS hab)).mp hp
  exact (List.pairwise_cons.mp hp2).1 b hb

theorem perm_getElem_cons_eraseIdx {α : Type} :
    ∀ (l : List α) (i : Nat) (h : i < l.length), l.Perm (l[i] :: l.eraseIdx i) := by
  intro l
  induction l with
  | nil => intro i h; simp at h
  | cons a t ih =>
    intro i h
    cases i with
    | zero => simp
    | succ j =>
      have hj : j < t.length := by simpa using h
      have h1 : (a :: t).Perm (a :: t[j] :: t.eraseIdx j) := (ih j hj).cons a
      have h2 : (a :: t[j] :: t.eraseIdx j).Perm (t[j] :: a :: t.eraseIdx j) :=
        List.Perm.swap _ _ _
      have h3 := h1.trans h2
      simpa using h3

theorem rel_of_pairwise_eraseIdx {R : Rect → Rect → Prop} (hS : Symmetric R)
    {l : List Rect} {i : Nat} (hp : l.Pairwise R) (hi : i < l.length) :
    ∀ b ∈ l.eraseIdx i, R l[i] b := by
  intro b hb
  have hp2 : (l[i] :: l.eraseIdx i).Pairwise R :=
    ((perm_getElem_cons_eraseIdx l i hi).pairwise_iff (fun hab => hS hab)).mp hp
  exact (List.pairwise_cons.mp hp2).1 b hb

/-! ### Scan specifications -/

theorem chooseFold_spec {W w h : ℚ} :
    ∀ (l : List Rect) (acc : Option Rect) (fr : Rect),
      l.foldl (chooseStep W w h) acc = some fr →
      acc = some fr ∨ (fr ∈ l ∧ w ≤ fr.width ∧ h ≤ fr.height) := by
  intro l
  induction l with
  | nil => intro acc fr hf; exact Or.inl hf
  | cons c t ih =>
    intro acc fr hf
    simp only [List.foldl_cons] at hf
    rcases ih _ fr hf with hacc | hmem
    · cases acc with
      | none =>
        simp only [chooseStep] at hacc
        split at hacc
        · obtain rfl : c = fr := by simpa using hacc
          exact Or.inr ⟨List.mem_cons_self _ _, by assumption⟩
        · cases hacc
      | some b =>
        simp only [chooseStep] at hacc
        split at hacc
        · split at hacc
          · obtain rfl : c = fr := by simpa using hacc
            exact Or.inr ⟨List.mem_cons_self _ _, by assumption⟩
          · exact Or.inl hacc
        · exact Or.inl hacc
    · exact Or.inr ⟨List.mem_cons_of_mem _ hmem.1, hmem.2⟩

theorem chooseBestRect_spec {W w h : ℚ} {free : List Rect} {fr : Rect}
    (hc : chooseBestRect W free w h = some fr) :
    fr ∈ free ∧ w ≤ fr.width ∧ h ≤ fr.height := by
  rcases chooseFold_spec free none fr hc with habs | hok
  · cases habs
  · exact hok

theorem findMinWidthGo_spec {sW rH : ℚ} :
    ∀ (l : List PrepItem) (n : Nat) (acc : Option (Nat × ℚ)) (i : Nat) (wd : ℚ),
      findMinWidthGo sW rH l n acc = some (i, wd) →
      acc = some (i, wd) ∨
        ∃ (j : Nat) (hj : j < l.length),
          i = n + j ∧ wd = (l[j]).width ∧ (l[j]).width ≤ sW ∧ (l[j]).height ≤ rH := by
  intro l
  induction l with
  | nil => intro n acc i wd hf; exact Or.inl hf
  | cons c t ih =>
    intro n acc i wd hf
    simp only [findMinWidthGo] at hf
    rcases ih (n + 1) _ i wd hf with hacc | ⟨j, hj, hij, hwd, h1, h2⟩
    · cases acc with
      | none =>
        simp only [findMinUpd] at hacc
        split at hacc
        · rename_i hel
          obtain ⟨rfl, rfl⟩ : n = i ∧ c.width = wd := by simpa using hacc
          exact Or.inr ⟨0, by simp, by simp, by simp, by simpa using hel.1,
            by simpa using hel.2⟩
        · cases hacc
      | some p =>
        obtain ⟨k, bw⟩ := p
        simp only [findMinUpd] at hacc
        split at hacc
        · rename_i hel
          obtain ⟨rfl, rfl⟩ : n = i ∧ c.width = wd := by simpa using hacc
          exact Or.inr ⟨0, by simp, by simp, by simp, by simpa using hel.1,
            by simpa using hel.2.1⟩
        · exact Or.inl hacc
    · exact Or.inr ⟨j + 1, by simpa using hj, by omega, by simpa using hwd,
        by simpa using h1, by simpa using h2⟩

theorem findMinWidth_spec {l : List PrepItem} {sW rH : ℚ} {i : Nat} {wd : ℚ}
    (hf : findMinWidth l sW rH = some (i, wd)) :
    ∃ hi : i < l.length,
      wd = (l[i]).width ∧ (l[i]).width ≤ sW ∧ (l[i]).height ≤ rH := by
  rcases findMinWidthGo_spec l 0 none i wd hf with habs | ⟨j, hj, hij, hwd, h1, h2⟩
  · cases habs
  · obtain rfl : i = j := by omega
    exact ⟨hj, hwd, h1, h2⟩

/-! ### Phase-1 invariant preservation -/

theorem packInv_sublist {lo W H : ℚ} {free free' : List Rect} {placed : List LayoutGame}
    (hs : List.Sublist free' free) (h : PackInv lo W H free placed) :
    PackInv lo W H free' placed := by
  obtain ⟨h1, h2, h3, h4, h5⟩ := h
  exact ⟨h1.sublist hs, fun f hf => h2 f (hs.mem hf), h3,
    fun f hf => h4 f (hs.mem hf), h5⟩

theorem packInv_prune {lo W H : ℚ} {free : List Rect} {placed : List LayoutGame}
    (h : PackInv lo W H free placed) :
    PackInv lo W H (pruneFreeRects free) placed :=
  packInv_sublist (pruneFreeRects_sublist free) h

theorem packInv_add {lo W H : ℚ} {free : List Rect} {placed : List LayoutGame} {r : Rect}
    (h : PackInv lo W H free placed)
    (hdf : ∀ f ∈ free, RectDisj f r)
    (hdg : ∀ g ∈ placed, RectDisj r g.rect)
    (hbox : InBox lo W H r) :
    PackInv lo W H (addFreeRect free r) placed := by
  obtain ⟨h1, h2, h3, h4, h5⟩ := h
  refine ⟨pairwise_addFreeRect h1 hdf, ?_, h3, ?_, h5⟩
  · intro f hf g hg
    rcases mem_addFreeRect hf with hm | ⟨rfl, _⟩
    · exact h2 f hm g hg
    · exact hdg g hg
  · intro f hf
    rcases mem_addFreeRect hf with hm | ⟨rfl, _⟩
    · exact h4 f hm
    · exact hbox

theorem phase1Step_spec {lo W H : ℚ} {st : Phase1St} {it : PrepItem}
    (hinv : PackInv lo W H st.free st.results)
    (hw : 0 ≤ it.width) (hh : 0 ≤ it.height) :
    PackInv lo W H (phase1Step W st it).free (phase1Step W st it).results ∧
    (gamesOfLayout (phase1Step W st it).results ++ gamesOfPrep (phase1Step W st it).overflow).Perm
      ((gamesOfLayout st.results ++ gamesOfPrep st.overflow) ++ [it.game]) ∧
    (∀ x ∈ (phase1Step W st it).overflow, x ∈ st.overflow ∨ x = it) := by
  unfold phase1Step
  cases hc : chooseBestRect W st.free it.width it.height with
  | none =>
    refine ⟨hinv, ?_, ?_⟩
    · simp only [gamesOfLayout, gamesOfPrep, List.map_append, List.map_cons]
      simp [List.append_assoc]
    · intro x hx
      rcases List.mem_append.mp hx with hx | hx
      · exact Or.inl hx
      · exact Or.inr (by simpa using hx)
  | some target =>
    obtain ⟨hmem, hwle, hhle⟩ := chooseBestRect_spec hc
    obtain ⟨hfp, hfg, hgg, hfb, hgb⟩ := hinv
    set pl : Rect := ⟨target.x, target.y, it.width, it.height⟩ with hpl
    have hsub_pl : SubRect pl target := by
      refine ⟨le_refl _, le_refl _, ?_, ?_⟩ <;> simp [hpl] <;> linarith
    have htb : ∀ f ∈ st.free.erase target, RectDisj target f :=
      rel_of_pairwise_erase rectDisj_symmetric hfp hmem
    -- the two remainder rectangles of the guillotine split
    set right : Rect := ⟨pl.x + pl.width, target.y, target.width - pl.width, pl.height⟩
      with hright
    set bottom : Rect := ⟨target.x, pl.y + pl.height, target.width, target.height - pl.height⟩
      with hbottom
    have hsub_right : SubRect right target := by
      refine ⟨?_, ?_, ?_, ?_⟩ <;> simp [hright, hpl] <;> linarith
    have hsub_bottom : SubRect bottom target := by
      refine ⟨?_, ?_, ?_, ?_⟩ <;> simp [hbottom, hpl] <;> linarith
    have hd_pl_right : RectDisj pl right :=
      rectDisj_of_right_le (by simp [hright])
    have hd_pl_bottom : RectDisj pl bottom :=
      rectDisj_of_below_le (by simp [hbottom])
    have hd_right_bottom : RectDisj right bottom :=
      rectDisj_of_below_le (by simp [hright, hbottom, hpl])
    have herase_inv : PackInv lo W H (st.free.erase target) st.results :=
      packInv_sublist (List.erase_sublist _ _) ⟨hfp, hfg, hgg, hfb, hgb⟩
    -- extend the placed list with the new item
    have hpl_box : InBox lo W H pl := inBox_of_subRect hsub_pl (hfb target hmem)
    have hplaced_inv :
        PackInv lo W H (st.free.erase target)
          (st.results ++ [⟨it.game, target.x, target.y, it.width, it.height⟩]) := by
      obtain ⟨e1, e2, e3, e4, e5⟩ := herase_inv
      refine ⟨e1, ?_, ?_, e4, ?_⟩
      · intro f hf g hg
        rcases List.mem_append.mp hg with hg | hg
        · exact e2 f hf g hg
        · obtain rfl : g = ⟨it.game, target.x, target.y, it.width, it.height⟩ := by
            simpa using hg
          exact rectDisj_mono_right hsub_pl (rectDisj_symm (htb f hf))
      · refine List.pairwise_append.mpr ⟨e3, List.pairwise_singleton _ _, ?_⟩
        intro g hg b hb
        obtain rfl : b = ⟨it.game, target.x, target.y, it.width, it.height⟩ := by
          simpa using hb
        exact rectDisj_mono_right hsub_pl (rectDisj_symm (hfg target hmem g hg))
      · intro g hg
        rcases List.mem_append.mp hg with hg | hg
        · exact e5 g hg
        · obtain rfl : g = ⟨it.game, target.x, target.y, it.width, it.height⟩ := by
            simpa using hg
          exact hpl_box
    have hmid1 :
        PackInv lo W H (addFreeRect (st.free.erase target) right)
          (st.results ++ [⟨it.game, target.x, target.y, it.width, it.height⟩]) := by
      refine packInv_add hplaced_inv ?_ ?_ (inBox_of_subRect hsub_right (hfb target hmem))
      · intro f hf
        exact rectDisj_mono_right hsub_right (rectDisj_symm (htb f hf))
      · intro g hg
        rcases List.mem_append.mp hg with hg | hg
        · exact rectDisj_mono_left hsub_right (hfg target hmem g hg)
        · obtain rfl : g = ⟨it.game, target.x, target.y, it.width, it.height⟩ := by
            simpa using hg
          exact rectDisj_symm hd_pl_right
    have hmid2 :
        PackInv lo W H (addFreeRect (addFreeRect (st.free.erase target) right) bottom)
          (st.results ++ [⟨it.game, target.x, target.y, it.width, it.height⟩]) := by
      refine packInv_add hmid1 ?_ ?_ (inBox_of_subRect hsub_bottom (hfb target hmem))
      · intro f hf
        rcases mem_addFreeRect hf with hm | ⟨rfl, _⟩
        · exact rectDisj_mono_right hsub_bottom (rectDisj_symm (htb f hm))
        · exact hd_right_bottom
      · intro g hg
        rcases List.mem_append.mp hg with hg | hg
        · exact rectDisj_mono_left hsub_bottom (hfg target hmem g hg)
        · obtain rfl : g = ⟨it.game, target.x, target.y, it.width, it.height⟩ := by
            simpa using hg
          exact rectDisj_symm hd_pl_bottom
    refine ⟨?_, ?_, ?_⟩
    · simpa [splitFreeRect, hright, hbottom, hpl] using packInv_prune hmid2
    · simp only [gamesOfLayout, gamesOfPrep, List.map_append, List.map_cons]
      simp only [List.map_nil, List.append_assoc]
      refine List.Perm.append_left _ ?_
      exact List.perm_append_comm
    · intro x hx
      exact Or.inl hx

theorem phase1_spec {lo W H : ℚ} :
    ∀ (items : List PrepItem) (st : Phase1St),
      PackInv lo W H st.free st.results →
      (∀ x ∈ items, 0 ≤ x.width ∧ 0 ≤ x.height) →
      PackInv lo W H (phase1 W items st).free (phase1 W items st).results ∧
      (gamesOfLayout (phase1 W items st).results ++
          gamesOfPrep (phase1 W items st).overflow).Perm
        ((gamesOfLayout st.results ++ gamesOfPrep st.overflow) ++ gamesOfPrep items) ∧
      (∀ x ∈ (phase1 W items st).overflow, x ∈ st.overflow ∨ x ∈ items) := by
  intro items
  induction items with
  | nil =>
    intro st hinv _
    refine ⟨hinv, by simp [phase1, gamesOfPrep], ?_⟩
    intro x hx
    exact Or.inl hx
  | cons it rest ih =>
    intro st hinv hdims
    have hstep := @phase1Step_spec lo W H st it hinv
      (hdims it (List.mem_cons_self _ _)).1 (hdims it (List.mem_cons_self _ _)).2
    have hrest := ih (phase1Step W st it) hstep.1
      (fun x hx => hdims x (List.mem_cons_of_mem _ hx))
    have hfold : phase1 W (it :: rest) st = phase1 W rest (phase1Step W st it) := by
      simp [phase1]
    rw [hfold]
    refine ⟨hrest.1, ?_, ?_⟩
    · have hA := hstep.2.1.append_right (gamesOfPrep rest)
      refine hrest.2.1.trans (hA.trans (List.Perm.of_eq ?_))
      simp [gamesOfPrep, List.append_assoc]
    · intro x hx
      rcases hrest.2.2 x hx with hx2 | hx2
      · rcases hstep.2.2 x hx2 with hx3 | hx3
        · exact Or.inl hx3
        · exact Or.inr (by simp [hx3])
      · exact Or.inr (List.mem_cons_of_mem _ hx2)

/-! ### Header height -/

theorem headerInfoHeight_ge (H : ℚ) : 60 ≤ headerInfoHeight H :=
  le_max_left _ _

theorem headerInfoHeight_le {H : ℚ} (hH : 100 ≤ H) : headerInfoHeight H ≤ H := by
  unfold headerInfoHeight
  have h1 : round (min (6 / 100 * H) 100) ≤ round (100 : ℚ) := by
    have : min (6 / 100 * H) 100 ≤ (100 : ℚ) := min_le_right _ _
    rw [round_eq, round_eq]
    exact Int.floor_le_floor (by linarith)
  have h2 : round (100 : ℚ) = 100 := by
    rw [round_eq]
    norm_num
  rw [max_le_iff]
  constructor
  · linarith
  · have : ((round (min (6 / 100 * H) 100) : ℤ) : ℚ) ≤ ((100 : ℤ) : ℚ) := by
      exact_mod_cast h1.trans_eq h2
    push_cast at this
    linarith

/-! ### Row-filling (shelf) lemmas -/

theorem fillRow_none {bw rowHeight y localX spaceW rowMaxH : ℚ} {remaining : List PrepItem}
    (h : findMinWidth remaining spaceW rowHeight = none) :
    fillRow bw rowHeight y remaining localX spaceW rowMaxH =
      ([], remaining, localX, spaceW, rowMaxH) := by
  rw [fillRow]
  simp [h]

theorem fillRow_some_stop {bw rowHeight y localX spaceW rowMaxH : ℚ}
    {remaining : List PrepItem} {i : Nat} {wd : ℚ} {it : PrepItem}
    (hf : findMinWidth remaining spaceW rowHeight = some (i, wd))
    (hget : remaining[i]? = some it)
    (hstop : spaceW - it.width < bw) :
    fillRow bw rowHeight y remaining localX spaceW rowMaxH =
      ([⟨it.game, localX, y, it.width, it.height⟩], remaining.eraseIdx i,
        localX + it.width, spaceW - it.width, max rowMaxH it.height) := by
  rw [fillRow]
  simp only [hf]
  split
  · rename_i heq
    rw [hget] at heq
    simp at heq
  · rename_i it2 heq
    rw [hget] at heq
    obtain rfl : it = it2 := by injection heq
    rw [if_pos hstop]

theorem fillRow_some_go {bw rowHeight y localX spaceW rowMaxH : ℚ}
    {remaining : List PrepItem} {i : Nat} {wd : ℚ} {it : PrepItem}
    (hf : findMinWidth remaining spaceW rowHeight = some (i, wd))
    (hget : remaining[i]? = some it)
    (hstop : ¬(spaceW - it.width < bw)) :
    fillRow bw rowHeight y remaining localX spaceW rowMaxH =
      ((⟨it.game, localX, y, it.width, it.height⟩ : LayoutGame) ::
          (fillRow bw rowHeight y (remaining.eraseIdx i) (localX + it.width)
            (spaceW - it.width) (max rowMaxH it.height)).1,
        (fillRow bw rowHeight y (remaining.eraseIdx i) (localX + it.width)
            (spaceW - it.width) (max rowMaxH it.height)).2) := by
  rw [fillRow]
  simp only [hf]
  split
  · rename_i heq
    rw [hget] at heq
    simp at heq
  · rename_i it2 heq
    rw [hget] at heq
    obtain rfl : it = it2 := by injection heq
    rw [if_neg hstop]

theorem fillRow_spec {bw rowHeight y : ℚ} :
    ∀ (n : Nat) (remaining : List PrepItem), remaining.length ≤ n →
      ∀ (localX spaceW rowMaxH : ℚ),
        (∀ x ∈ remaining, 0 ≤ x.width ∧ 0 ≤ x.height) →
        FillRowSpec rowHeight y localX spaceW rowMaxH remaining
          (fillRow bw rowHeight y remaining localX spaceW rowMaxH) := by
  intro n
  induction n with
  | zero =>
    intro remaining hlen localX spaceW rowMaxH hdims
    have hnil : remaining = [] := List.eq_nil_of_length_eq_zero (Nat.le_zero.mp hlen)
    subst hnil
    have hfm : findMinWidth ([] : List PrepItem) spaceW rowHeight = none := rfl
    rw [fillRow_none hfm]
    dsimp only [FillRowSpec]
    exact ⟨by simp [gamesOfLayout], by simp, rfl, le_refl _, le_refl _, by simp,
      by simp, fun _ => rfl⟩
  | succ n ih =>
    intro remaining hlen localX spaceW rowMaxH hdims
    cases hfm : findMinWidth remaining spaceW rowHeight with
    | none =>
      rw [fillRow_none hfm]
      dsimp only [FillRowSpec]
      exact ⟨by simp [gamesOfLayout], by simp, rfl, le_refl _, le_refl _, by simp,
        by simp, fun _ => rfl⟩
    | some p =>
      obtain ⟨i, wd⟩ := p
      obtain ⟨hi, hwd, helig1, helig2⟩ := findMinWidth_spec hfm
      have hget : remaining[i]? = some remaining[i] := List.getElem?_eq_getElem hi
      have hitmem : remaining[i] ∈ remaining := List.getElem_mem hi
      have hdimsit := hdims _ hitmem
      have hperm0 : remaining.Perm (remaining[i] :: remaining.eraseIdx i) :=
        perm_getElem_cons_eraseIdx remaining i hi
      have hpermg :
          (gamesOfPrep remaining).Perm
            (remaining[i].game :: gamesOfPrep (remaining.eraseIdx i)) := by
        simpa [gamesOfPrep] using hperm0.map (fun x => x.game)
      have hmemE : ∀ x ∈ remaining.eraseIdx i, x ∈ remaining := by
        intro x hx
        exact hperm0.symm.subset (List.mem_cons_of_mem _ hx)
      by_cases hstop : spaceW - remaining[i].width < bw
      · rw [fillRow_some_stop hfm hget hstop]
        dsimp only [FillRowSpec]
        refine ⟨?_, ?_, by ring, ?_, le_max_left _ _, ?_, ?_, by simp⟩
        · simpa [gamesOfLayout, gamesOfPrep] using hpermg.symm
        · intro x hx
          exact hmemE x hx
        · linarith [hdimsit.1]
        · intro g hg
          obtain rfl : g = ⟨remaining[i].game, localX, y, remaining[i].width,
              remaining[i].height⟩ := by simpa using hg
          exact ⟨le_refl _, by dsimp only; linarith, rfl, hdimsit.1, hdimsit.2,
            by simpa using helig2, le_max_right _ _⟩
        · simp
      · rw [fillRow_some_go hfm hget hstop]
        have hlen2 : (remaining.eraseIdx i).length ≤ n := by
          rw [List.length_eraseIdx]
          simp only [hi, if_pos]
          omega
        have hdims2 : ∀ x ∈ remaining.eraseIdx i, 0 ≤ x.width ∧ 0 ≤ x.height :=
          fun x hx => hdims x (hmemE x hx)
        have hrec := ih (remaining.eraseIdx i) hlen2 (localX + remaining[i].width)
          (spaceW - remaining[i].width) (max rowMaxH remaining[i].height) hdims2
        obtain ⟨r1, r2, r3, r4, r5, r6, r7, _⟩ := hrec
        dsimp only [FillRowSpec]
        refine ⟨?_, ?_, by linarith, by linarith [hdimsit.1], ?_, ?_, ?_, by simp⟩
        · refine List.Perm.trans ?_ hpermg.symm
          have r1b : (remaining[i].game ::
              (gamesOfLayout (fillRow bw rowHeight y (remaining.eraseIdx i)
                  (localX + remaining[i].width) (spaceW - remaining[i].width)
                  (max rowMaxH remaining[i].height)).1 ++
                gamesOfPrep (fillRow bw rowHeight y (remaining.eraseIdx i)
                  (localX + remaining[i].width) (spaceW - remaining[i].width)
                  (max rowMaxH remaining[i].height)).2.1)).Perm
              (remaining[i].game :: gamesOfPrep (remaining.eraseIdx i)) :=
            r1.cons remaining[i].game
          refine List.Perm.trans (List.Perm.of_eq ?_) r1b
          simp [gamesOfLayout]
        · intro x hx
          exact hmemE x (r2 x hx)
        · exact le_trans (le_max_left _ _) r5
        · intro g hg
          rcases List.mem_cons.mp hg with rfl | hg2
          · exact ⟨le_refl _, by dsimp only; linarith, rfl, hdimsit.1, hdimsit.2,
              by simpa using helig2, le_trans (le_max_right _ _) r5⟩
          · obtain ⟨g1, g2, g3, g4, g5, g6, g7⟩ := r6 g hg2
            exact ⟨by linarith [hdimsit.1], by linarith, g3, g4, g5, g6, g7⟩
        · refine List.pairwise_cons.mpr ⟨?_, r7⟩
          intro g2 hg2
          obtain ⟨g1, _, _, _, _, _, _⟩ := r6 g2 hg2
          refine rectDisj_of_right_le ?_
          simpa [LayoutGame.rect] using g1

theorem foldl_min_le_init : ∀ (l : List PrepItem) (a : ℚ),
    l.foldl (fun m it => min m it.height) a ≤ a := by
  intro l
  induction l with
  | nil => intro a; exact le_refl a
  | cons c t ih =>
    intro a
    exact le_trans (ih (min a c.height)) (min_le_left _ _)

theorem gamesOfLayout_append (a b : List LayoutGame) :
    gamesOfLayout (a ++ b) = gamesOfLayout a ++ gamesOfLayout b := by
  simp [gamesOfLayout]

theorem gamesOfPrep_append (a b : List PrepItem) :
    gamesOfPrep (a ++ b) = gamesOfPrep a ++ gamesOfPrep b := by
  simp [gamesOfPrep]

theorem shelfLoop_spec {bw bh : ℚ} :
    ∀ (fuel : Nat) (rect : Rect) (remaining : List PrepItem) (free : List Rect)
      (results : List LayoutGame),
      remaining.length < fuel →
      (∀ x ∈ remaining, 0 ≤ x.width ∧ 0 ≤ x.height) →
      ShelfSpec rect remaining results (shelfLoop bw bh fuel rect remaining free results) := by
  intro fuel
  induction fuel with
  | zero =>
    intro rect remaining free results hlen
    exact absurd hlen (by omega)
  | succ fuel ih =>
    intro rect remaining free results hlen hdims
    rw [shelfLoop]
    by_cases hh : rect.height < bh
    · rw [if_pos hh]
      exact ⟨⟨[], by simp, by simp [gamesOfLayout], by simp, by simp⟩, fun x hx => hx⟩
    · rw [if_neg hh]
      cases hfil : remaining.filter
          (fun it => decide (it.height ≤ rect.height) && decide (it.width ≤ rect.width)) with
      | nil =>
        simp only [hfil]
        exact ⟨⟨[], by simp, by simp [gamesOfLayout], by simp, by simp⟩, fun x hx => hx⟩
      | cons c cs =>
        simp only [hfil]
        have hcmem : c ∈ remaining.filter
            (fun it => decide (it.height ≤ rect.height) && decide (it.width ≤ rect.width)) := by
          rw [hfil]
          exact List.mem_cons_self _ _
        have hc2 : c.height ≤ rect.height := by
          have := List.of_mem_filter hcmem
          simp only [Bool.and_eq_true, decide_eq_true_eq] at this
          exact this.1
        have hrow_le : cs.foldl (fun m it => min m it.height) c.height ≤ rect.height :=
          le_trans (foldl_min_le_init cs c.height) hc2
        have hfspec := @fillRow_spec bw (cs.foldl (fun m it => min m it.height) c.height)
          rect.y remaining.length remaining (le_refl _) rect.x rect.width 0 hdims
        obtain ⟨f1, f2, f3, f4, f5, f6, f7, f8⟩ := hfspec
        cases hps : (fillRow bw (cs.foldl (fun m it => min m it.height) c.height) rect.y
            remaining rect.x rect.width 0).1 with
        | nil =>
          rw [f8 hps]
          dsimp only
          exact ⟨⟨[], by simp, by simp [gamesOfLayout], by simp, by simp⟩, fun x hx => hx⟩
        | cons g gs =>
          set F := fillRow bw (cs.foldl (fun m it => min m it.height) c.height) rect.y
            remaining rect.x rect.width 0 with hF
          dsimp only
          rw [hps] at f6 f7
          have hlen2 : F.2.1.length < fuel := by
            have hle := f1.length_eq
            rw [hps] at hle
            simp only [gamesOfLayout, gamesOfPrep, List.length_append, List.length_map,
              List.length_cons] at hle
            omega
          have hdims2 : ∀ x ∈ F.2.1, 0 ≤ x.width ∧ 0 ≤ x.height :=
            fun x hx => hdims x (f2 x hx)
          have hrec := ih ⟨rect.x, rect.y + F.2.2.2.2, rect.width, rect.height - F.2.2.2.2⟩
            F.2.1
            (pruneFreeRects (if 0 < F.2.2.2.1 then
              addFreeRect free ⟨F.2.2.1, rect.y, F.2.2.2.1, F.2.2.2.2⟩ else free))
            (results ++ g :: gs) hlen2 hdims2
          obtain ⟨⟨new₂, hres, hperm₂, hsub₂, hpw₂⟩, hmem₂⟩ := hrec
          have hsubR : SubRect ⟨rect.x, rect.y + F.2.2.2.2, rect.width,
              rect.height - F.2.2.2.2⟩ rect := by
            refine ⟨le_refl _, by dsimp only; linarith [f5], le_of_eq rfl, ?_⟩
            dsimp only
            linarith
          refine ⟨⟨(g :: gs) ++ new₂, ?_, ?_, ?_, ?_⟩, ?_⟩
          · rw [hres]
            simp [List.append_assoc]
          · rw [gamesOfLayout_append, List.append_assoc]
            refine List.Perm.trans (List.Perm.append_left _ hperm₂) ?_
            have f1b := f1
            rw [hps] at f1b
            exact f1b
          · intro p hp
            rcases List.mem_append.mp hp with hp1 | hp2
            · obtain ⟨p1, p2, p3, p4, p5, p6, p7⟩ := f6 p hp1
              refine ⟨⟨p1, le_of_eq p3.symm, p2, ?_⟩, p4, p5⟩
              have hpb : p.y + p.height ≤ rect.y + rect.height := by
                rw [p3]
                linarith [le_trans p6 hrow_le]
              simpa [LayoutGame.rect] using hpb
            · obtain ⟨hq1, hq2, hq3⟩ := hsub₂ p hp2
              exact ⟨subRect_trans hq1 hsubR, hq2, hq3⟩
          · refine List.pairwise_append.mpr ⟨f7, hpw₂, ?_⟩
            intro p hp q hq
            obtain ⟨p1, p2, p3, p4, p5, p6, p7⟩ := f6 p hp
            obtain ⟨hq1, _, _⟩ := hsub₂ q hq
            refine rectDisj_of_below_le ?_
            have hqy : rect.y + F.2.2.2.2 ≤ q.y := by
              have hq1b := hq1.2.1
              simpa [LayoutGame.rect] using hq1b
            have hpb : p.y + p.height ≤ rect.y + F.2.2.2.2 := by
              rw [p3]
              linarith
            simpa [LayoutGame.rect] using le_trans hpb hqy
          · intro x hx
            exact f2 x (hmem₂ x hx)

theorem fillRectWithShelf_spec {bw bh : ℚ} (fr : Rect) (free : List Rect)
    (remaining : List PrepItem) (results : List LayoutGame)
    (hdims : ∀ x ∈ remaining, 0 ≤ x.width ∧ 0 ≤ x.height) :
    ∃ new : List LayoutGame,
      (fillRectWithShelf bw bh fr (free, remaining, results)).2.2 = results ++ new ∧
      (gamesOfLayout new ++
        gamesOfPrep (fillRectWithShelf bw bh fr (free, remaining, results)).2.1).Perm
        (gamesOfPrep remaining) ∧
      (∀ g ∈ new, SubRect g.rect fr ∧ 0 ≤ g.width ∧ 0 ≤ g.height) ∧
      List.Pairwise (fun a b => RectDisj a.rect b.rect) new ∧
      (∀ x ∈ (fillRectWithShelf bw bh fr (free, remaining, results)).2.1, x ∈ remaining) := by
  have hspec := @shelfLoop_spec bw bh (remaining.length + 1) fr remaining
    (free.erase fr) results (by omega) hdims
  obtain ⟨⟨new, hres, hperm, hsub, hpw⟩, hmem⟩ := hspec
  refine ⟨new, ?_, ?_, hsub, hpw, ?_⟩
  · simpa [fillRectWithShelf] using hres
  · simpa [fillRectWithShelf] using hperm
  · simpa [fillRectWithShelf] using hmem

theorem phase2_spec {bw bh lo W H : ℚ} :
    ∀ (snapshot : List Rect) (free : List Rect) (remaining : List PrepItem)
      (results : List LayoutGame),
      List.Pairwise (fun a b => RectDisj a.rect b.rect) results →
      (∀ s ∈ snapshot, ∀ g ∈ results, RectDisj s g.rect) →
      snapshot.Pairwise RectDisj →
      (∀ s ∈ snapshot, InBox lo W H s) →
      (∀ g ∈ results, InBox lo W H g.rect) →
      (∀ x ∈ remaining, 0 ≤ x.width ∧ 0 ≤ x.height) →
      List.Pairwise (fun a b => RectDisj a.rect b.rect)
        (phase2 bw bh snapshot (free, remaining, results)).2.2 ∧
      (∀ g ∈ (phase2 bw bh snapshot (free, remaining, results)).2.2, InBox lo W H g.rect) ∧
      (gamesOfLayout (phase2 bw bh snapshot (free, remaining, results)).2.2 ++
        gamesOfPrep (phase2 bw bh snapshot (free, remaining, results)).2.1).Perm
        (gamesOfLayout results ++ gamesOfPrep remaining) := by
  intro snapshot
  induction snapshot with
  | nil =>
    intro free remaining results hA hB hC hD hE hdims
    exact ⟨hA, hE, List.Perm.refl _⟩
  | cons fr rest ih =>
    intro free remaining results hA hB hC hD hE hdims
    obtain ⟨new, hres, hperm, hsub, hpw, hmem⟩ :=
      @fillRectWithShelf_spec bw bh fr free remaining results hdims
    have hfr_rest : ∀ s ∈ rest, RectDisj fr s := (List.pairwise_cons.mp hC).1
    have hA' : List.Pairwise (fun a b => RectDisj a.rect b.rect) (results ++ new) := by
      refine List.pairwise_append.mpr ⟨hA, hpw, ?_⟩
      intro g hg p hp
      exact rectDisj_mono_right (hsub p hp).1
        (rectDisj_symm (hB fr (List.mem_cons_self _ _) g hg))
    have hB' : ∀ s ∈ rest, ∀ g ∈ results ++ new, RectDisj s g.rect := by
      intro s hs g hg
      rcases List.mem_append.mp hg with hg | hg
      · exact hB s (List.mem_cons_of_mem _ hs) g hg
      · exact rectDisj_mono_right (hsub g hg).1 (rectDisj_symm (hfr_rest s hs))
    have hC' : rest.Pairwise RectDisj := (List.pairwise_cons.mp hC).2
    have hD' : ∀ s ∈ rest, InBox lo W H s :=
      fun s hs => hD s (List.mem_cons_of_mem _ hs)
    have hE' : ∀ g ∈ results ++ new, InBox lo W H g.rect := by
      intro g hg
      rcases List.mem_append.mp hg with hg | hg
      · exact hE g hg
      · exact inBox_of_subRect (hsub g hg).1 (hD fr (List.mem_cons_self _ _))
    have hdims' : ∀ x ∈ (fillRectWithShelf bw bh fr (free, remaining, results)).2.1,
        0 ≤ x.width ∧ 0 ≤ x.height :=
      fun x hx => hdims x (hmem x hx)
    have hfold : phase2 bw bh (fr :: rest) (free, remaining, results) =
        phase2 bw bh rest (fillRectWithShelf bw bh fr (free, remaining, results)) := by
      simp [phase2]
    rw [hfold]
    rcases hst : fillRectWithShelf bw bh fr (free, remaining, results) with
      ⟨free', rem', res'⟩
    rw [hst] at hres hperm hmem hdims'
    dsimp only at hres hperm hmem hdims'
    subst hres
    have hrec := ih free' rem' (results ++ new) hA' hB' hC' hD' hE' hdims'
    refine ⟨hrec.1, hrec.2.1, ?_⟩
    refine hrec.2.2.trans ?_
    rw [gamesOfLayout_append, List.append_assoc]
    exact List.Perm.append_left _ hperm

/-! ### The tiered layout: master specification -/

theorem tieredLayout_spec (W H bw bh : ℚ) (prepared : List PrepItem)
    (hdims : ∀ x ∈ prepared, 0 ≤ x.width ∧ 0 ≤ x.height)
    (hH : 100 ≤ H) :
    List.Pairwise (fun a b => RectDisj a.rect b.rect) (tieredLayout W H bw bh prepared).1 ∧
    (∀ g ∈ (tieredLayout W H bw bh prepared).1, InBox (headerInfoHeight H) W H g.rect) ∧
    (gamesOfLayout (tieredLayout W H bw bh prepared).1 ++
      gamesOfPrep (tieredLayout W H bw bh prepared).2).Perm (gamesOfPrep prepared) := by
  have hhead_le : headerInfoHeight H ≤ H := headerInfoHeight_le hH
  have hhead_ge : (60 : ℚ) ≤ headerInfoHeight H := headerInfoHeight_ge H
  unfold tieredLayout
  dsimp only
  set header := headerInfoHeight H with hheader
  set init : Rect := ⟨0, header, W, max 0 (H - header)⟩ with hinit
  set remainingDesc := prepared.mergeSort (fun a b => decide (sortKey a ≤ sortKey b))
    with hRD
  have hRDperm : remainingDesc.Perm prepared := List.mergeSort_perm prepared _
  have hdimsRD : ∀ x ∈ remainingDesc, 0 ≤ x.width ∧ 0 ≤ x.height :=
    fun x hx => hdims x (hRDperm.subset hx)
  have hinit_box : InBox header W H init := by
    refine ⟨le_refl _, le_refl _, by simp, ?_⟩
    have hmax : max 0 (H - header) = H - header :=
      max_eq_right (by linarith)
    simp only [hinit, hmax]
    simp
  have hinit_inv : PackInv header W H [init] [] := by
    refine ⟨List.pairwise_singleton _ _, ?_, List.Pairwise.nil, ?_, ?_⟩
    · intro f _ g hg
      simp at hg
    · intro f hf
      obtain rfl : f = init := by simpa using hf
      exact hinit_box
    · intro g hg
      simp at hg
  have hph1 := @phase1_spec header W H remainingDesc
    ⟨[init], [], []⟩ hinit_inv hdimsRD
  obtain ⟨hinv1, hcons1, hover1⟩ := hph1
  set st := phase1 W remainingDesc ⟨[init], [], []⟩ with hst
  obtain ⟨i1, i2, i3, i4, i5⟩ := hinv1
  set sortedFree := st.free.mergeSort
    (fun a b => decide (a.y < b.y ∨ (a.y = b.y ∧ a.x ≤ b.x))) with hSF
  have hSFperm : sortedFree.Perm st.free := List.mergeSort_perm _ _
  set remainingAsc := st.overflow.mergeSort (fun a b => decide (a.mult ≤ b.mult))
    with hRA
  have hRAperm : remainingAsc.Perm st.overflow := List.mergeSort_perm _ _
  have hdimsOver : ∀ x ∈ st.overflow, 0 ≤ x.width ∧ 0 ≤ x.height := by
    intro x hx
    rcases hover1 x hx with hx2 | hx2
    · simp at hx2
    · exact hdimsRD x hx2
  have hdimsRA : ∀ x ∈ remainingAsc, 0 ≤ x.width ∧ 0 ≤ x.height :=
    fun x hx => hdimsOver x (hRAperm.subset hx)
  have hph2 := @phase2_spec bw bh header W H
    sortedFree sortedFree remainingAsc st.results i3
    (fun s hs g hg => i2 s (hSFperm.subset hs) g hg)
    ((hSFperm.pairwise_iff (fun hab => rectDisj_symmetric hab)).mpr i1)
    (fun s hs => i4 s (hSFperm.subset hs))
    i5 hdimsRA
  obtain ⟨hp1, hp2, hp3⟩ := hph2
  refine ⟨hp1, hp2, ?_⟩
  refine hp3.trans ?_
  have hstep1 : (gamesOfLayout st.results ++ gamesOfPrep remainingAsc).Perm
      (gamesOfLayout st.results ++ gamesOfPrep st.overflow) := by
    refine List.Perm.append_left _ ?_
    simpa [gamesOfPrep] using hRAperm.map (fun x => x.game)
  refine hstep1.trans ?_
  refine hcons1.trans ?_
  have : gamesOfLayout ([] : List LayoutGame) ++ gamesOfPrep ([] : List PrepItem) = [] := by
    simp [gamesOfLayout, gamesOfPrep]
  rw [this]
  simp only [List.nil_append]
  simpa [gamesOfPrep] using hRDperm.map (fun x => x.game)

/-! ### The naive best-area-fit scan: characterization -/

theorem naiveChooseGo_none {w h : ℚ} :
    ∀ (l : List Rect) (n : Nat) (acc : Option (Nat × Rect)),
      naiveChooseGo w h l n acc = none ↔
        (acc = none ∧ ∀ fr ∈ l, ¬(w ≤ fr.width ∧ h ≤ fr.height)) := by
  intro l
  induction l with
  | nil =>
    intro n acc
    simp [naiveChooseGo]
  | cons c t ih =>
    intro n acc
    simp only [naiveChooseGo]
    rw [ih]
    constructor
    · rintro ⟨hupd, hrest⟩
      cases acc with
      | none =>
        simp only [naiveUpd] at hupd
        split at hupd
        · cases hupd
        · rename_i hel
          refine ⟨rfl, ?_⟩
          intro fr hfr
          rcases List.mem_cons.mp hfr with rfl | hfr2
          · exact hel
          · exact hrest fr hfr2
      | some p =>
        obtain ⟨k, b⟩ := p
        simp only [naiveUpd] at hupd
        split at hupd <;> cases hupd
    · rintro ⟨rfl, hall⟩
      have hnel : ¬(w ≤ c.width ∧ h ≤ c.height) := hall c (List.mem_cons_self _ _)
      refine ⟨?_, fun fr hfr => hall fr (List.mem_cons_of_mem _ hfr)⟩
      simp [naiveUpd, hnel]

theorem naiveChooseGo_spec {w h : ℚ} :
    ∀ (l : List Rect) (n : Nat) (acc : Option (Nat × Rect)) (i : Nat) (fr : Rect),
      naiveChooseGo w h l n acc = some (i, fr) →
      (acc = some (i, fr) ∧ ∀ fr' ∈ l, w ≤ fr'.width ∧ h ≤ fr'.height →
          naiveScore w h fr ≤ naiveScore w h fr') ∨
      (∃ (j : Nat) (hj : j < l.length),
        i = n + j ∧ fr = l[j] ∧ (w ≤ fr.width ∧ h ≤ fr.height) ∧
        (∀ fr' ∈ l, w ≤ fr'.width ∧ h ≤ fr'.height →
          naiveScore w h fr ≤ naiveScore w h fr') ∧
        (∀ (k : Nat) (hk : k < l.length), k < j → w ≤ (l[k]).width ∧ h ≤ (l[k]).height →
          naiveScore w h fr < naiveScore w h (l[k])) ∧
        (∀ (kb : Nat) (b : Rect), acc = some (kb, b) →
          naiveScore w h fr < naiveScore w h b)) := by
  intro l
  induction l with
  | nil =>
    intro n acc i fr hf
    left
    exact ⟨hf, by simp⟩
  | cons c t ih =>
    intro n acc i fr hf
    simp only [naiveChooseGo] at hf
    rcases ih (n + 1) _ i fr hf with ⟨hacc, boundT⟩ | hB
    · -- the result came through the updated accumulator unchanged by t
      cases acc with
      | none =>
        simp only [naiveUpd] at hacc
        split at hacc
        · rename_i hel
          obtain ⟨rfl, rfl⟩ : n = i ∧ c = fr := by simpa using hacc
          right
          refine ⟨0, by simp, by simp, by simp, hel, ?_, by omega, by simp⟩
          intro fr' hfr' hel'
          rcases List.mem_cons.mp hfr' with rfl | hfr2
          · exact le_refl _
          · exact boundT fr' hfr2 hel'
        · cases hacc
      | some p =>
        obtain ⟨kb, b⟩ := p
        simp only [naiveUpd] at hacc
        split at hacc
        · rename_i hcond
          obtain ⟨rfl, rfl⟩ : n = i ∧ c = fr := by simpa using hacc
          right
          refine ⟨0, by simp, by simp, by simp, ⟨hcond.1, hcond.2.1⟩, ?_, by omega, ?_⟩
          · intro fr' hfr' hel'
            rcases List.mem_cons.mp hfr' with rfl | hfr2
            · exact le_refl _
            · exact boundT fr' hfr2 hel'
          · intro kb2 b2 heq
            obtain ⟨rfl, rfl⟩ : kb = kb2 ∧ b = b2 := by simpa using heq
            exact hcond.2.2
        · rename_i hcond
          obtain ⟨rfl, rfl⟩ : kb = i ∧ b = fr := by simpa using hacc
          left
          refine ⟨rfl, ?_⟩
          intro fr' hfr' hel'
          rcases List.mem_cons.mp hfr' with rfl | hfr2
          · by_contra hlt
            push_neg at hlt
            exact hcond ⟨hel'.1, hel'.2, hlt⟩
          · exact boundT fr' hfr2 hel'
    · obtain ⟨j, hj, hij, hfr, helig, boundT, strictT, accStrictT⟩ := hB
      -- the result came from the tail scan; show `c` cannot beat it
      have hbeats_c : (w ≤ c.width ∧ h ≤ c.height) →
          naiveScore w h fr < naiveScore w h c := by
        intro helc
        cases acc with
        | none =>
          have : naiveUpd w h n c none = some (n, c) := by
            simp [naiveUpd, helc]
          exact accStrictT n c this
        | some p =>
          obtain ⟨kb, b⟩ := p
          by_cases hlt : naiveScore w h c < naiveScore w h b
          · have : naiveUpd w h n c (some (kb, b)) = some (n, c) := by
              simp [naiveUpd, helc, hlt]
            exact accStrictT n c this
          · have : naiveUpd w h n c (some (kb, b)) = some (kb, b) := by
              have : ¬(w ≤ c.width ∧ h ≤ c.height ∧ naiveScore w h c < naiveScore w h b) := by
                intro hcon
                exact hlt hcon.2.2
              simp [naiveUpd, this]
            have hfb := accStrictT kb b this
            push_neg at hlt
            linarith
      right
      refine ⟨j + 1, by simpa using hj, by omega, by simpa using hfr, helig, ?_, ?_, ?_⟩
      · intro fr' hfr' hel'
        rcases List.mem_cons.mp hfr' with rfl | hfr2
        · exact le_of_lt (hbeats_c hel')
        · exact boundT fr' hfr2 hel'
      · intro k hk hkj hel'
        cases k with
        | zero =>
          simpa using hbeats_c (by simpa using hel')
        | succ k2 =>
          have hk2 : k2 < t.length := by simpa using hk
          have := strictT k2 hk2 (by omega) (by simpa using hel')
          simpa using this
      · intro kb b heq
        subst heq
        cases hc : naiveUpd w h n c (some (kb, b)) with
        | none =>
          simp only [naiveUpd] at hc
          split at hc <;> cases hc
        | some q =>
          obtain ⟨kq, bq⟩ := q
          have := accStrictT kq bq hc
          simp only [naiveUpd] at hc
          split at hc
          · rename_i hcond
            obtain ⟨rfl, rfl⟩ : n = kq ∧ c = bq := by simpa using hc
            linarith [hcond.2.2]
          · obtain ⟨rfl, rfl⟩ : kb = kq ∧ b = bq := by simpa using hc
            exact this

theorem naiveChoose_spec {free : List Rect} {w h : ℚ} {i : Nat} {fr : Rect}
    (hc : naiveChoose free w h = some (i, fr)) :
    ∃ hi : i < free.length,
      fr = free[i] ∧ (w ≤ fr.width ∧ h ≤ fr.height) ∧
      (∀ fr' ∈ free, (w ≤ fr'.width ∧ h ≤ fr'.height) →
        naiveScore w h fr ≤ naiveScore w h fr') ∧
      (∀ (k : Nat) (hk : k < free.length), k < i →
        (w ≤ (free[k]).width ∧ h ≤ (free[k]).height) →
        naiveScore w h fr < naiveScore w h (free[k])) := by
  rcases naiveChooseGo_spec free 0 none i fr hc with ⟨habs, _⟩ |
    ⟨j, hj, hij, hfr, helig, hbound, hstrict, _⟩
  · cases habs
  · obtain rfl : i = j := by omega
    exact ⟨hj, hfr, helig, hbound, hstrict⟩

theorem naiveChoose_none_iff {free : List Rect} {w h : ℚ} :
    naiveChoose free w h = none ↔ ∀ fr ∈ free, ¬(w ≤ fr.width ∧ h ≤ fr.height) := by
  unfold naiveChoose
  rw [naiveChooseGo_none]
  simp

theorem mem_naiveSplit {fr : Rect} {w h : ℚ} {r : Rect} (hr : r ∈ naiveSplit fr w h) :
    (w < fr.width ∧ r = ⟨fr.x + w, fr.y, fr.width - w, fr.height⟩) ∨
    (h < fr.height ∧
      r = ⟨fr.x, fr.y + h, if w < fr.width then w else fr.width, fr.height - h⟩) := by
  unfold naiveSplit at hr
  rcases List.mem_append.mp hr with hr1 | hr1
  · left
    by_cases hcw : w < fr.width
    · rw [if_pos hcw] at hr1
      exact ⟨hcw, by simpa using hr1⟩
    · rw [if_neg hcw] at hr1
      simp at hr1
  · right
    by_cases hch : h < fr.height
    · rw [if_pos hch] at hr1
      exact ⟨hch, by simpa using hr1⟩
    · rw [if_neg hch] at hr1
      simp at hr1

theorem naiveSplit_pairwise (fr : Rect) (w h : ℚ) :
    (naiveSplit fr w h).Pairwise RectDisj := by
  unfold naiveSplit
  by_cases hcw : w < fr.width
  · by_cases hch : h < fr.height
    · rw [if_pos hcw, if_pos hch]
      refine List.pairwise_append.mpr ⟨List.pairwise_singleton _ _,
        List.pairwise_singleton _ _, ?_⟩
      intro a ha b hb
      obtain rfl : a = ⟨fr.x + w, fr.y, fr.width - w, fr.height⟩ := by simpa using ha
      obtain rfl : b = ⟨fr.x, fr.y + h, if w < fr.width then w else fr.width,
          fr.height - h⟩ := by simpa using hb
      refine rectDisj_symm (rectDisj_of_right_le ?_)
      simp [if_pos hcw]
    · rw [if_pos hcw, if_neg hch]
      simp
  · by_cases hch : h < fr.height
    · rw [if_neg hcw, if_pos hch]
      simp
    · rw [if_neg hcw, if_neg hch]
      simp

theorem naiveStep_spec {W H : ℚ} {st : List Rect × List LayoutGame} {g : SizedGame}
    (hinv : PackInv 0 W H st.1 st.2)
    (hw : 0 ≤ g.width) (hh : 0 ≤ g.height) :
    PackInv 0 W H (naiveStep st g).1 (naiveStep st g).2 := by
  unfold naiveStep
  cases hc : naiveChoose st.1 g.width g.height with
  | none => exact hinv
  | some p =>
    obtain ⟨i, fr⟩ := p
    obtain ⟨hi, hfr, helig, _, _⟩ := naiveChoose_spec hc
    obtain ⟨hfp, hfg, hgg, hfb, hgb⟩ := hinv
    have hfrmem : fr ∈ st.1 := by
      rw [hfr]
      exact List.getElem_mem hi
    have hfr_box : InBox 0 W H fr := hfb fr hfrmem
    set node : Rect := ⟨fr.x, fr.y, g.width, g.height⟩ with hnode
    have hsub_node : SubRect node fr := by
      refine ⟨le_refl _, le_refl _, ?_, ?_⟩ <;> simp [hnode] <;> linarith [helig.1, helig.2]
    have hbase_fr : ∀ f ∈ st.1.eraseIdx i, RectDisj fr f := by
      intro f hf
      have := rel_of_pairwise_eraseIdx rectDisj_symmetric hfp hi f hf
      rw [hfr]
      exact this
    have hsplit_sub : ∀ r ∈ naiveSplit fr g.width g.height, SubRect r fr := by
      intro r hr
      rcases mem_naiveSplit hr with ⟨hcw, rfl⟩ | ⟨hch, rfl⟩
      · refine ⟨by dsimp only; linarith, le_refl _, ?_, ?_⟩ <;> dsimp only <;> linarith
      · refine ⟨le_refl _, by dsimp only; linarith, ?_, ?_⟩
        · dsimp only
          split <;> linarith [helig.1]
        · dsimp only
          linarith
    have hsplit_node : ∀ r ∈ naiveSplit fr g.width g.height, RectDisj node r := by
      intro r hr
      rcases mem_naiveSplit hr with ⟨hcw, rfl⟩ | ⟨hch, rfl⟩
      · refine rectDisj_of_right_le ?_
        simp [hnode]
      · refine rectDisj_of_below_le ?_
        simp [hnode]
    constructor
    · -- new free list pairwise
      refine List.pairwise_append.mpr ⟨hfp.sublist (List.eraseIdx_sublist _ _),
        naiveSplit_pairwise fr g.width g.height, ?_⟩
      intro a ha b hb
      exact rectDisj_mono_right (hsplit_sub b hb) (rectDisj_symm (hbase_fr a ha))
    refine ⟨?_, ?_, ?_, ?_⟩
    · -- free vs placed
      intro f hf g2 hg2
      rcases List.mem_append.mp hf with hf1 | hf1
      · rcases List.mem_append.mp hg2 with hg1 | hg1
        · exact hfg f ((List.eraseIdx_sublist _ _).mem hf1) g2 hg1
        · obtain rfl : g2 = ⟨g.game, fr.x, fr.y, g.width, g.height⟩ := by simpa using hg1
          exact rectDisj_mono_right hsub_node (rectDisj_symm (hbase_fr f hf1))
      · rcases List.mem_append.mp hg2 with hg1 | hg1
        · exact rectDisj_mono_left (hsplit_sub f hf1) (hfg fr hfrmem g2 hg1)
        · obtain rfl : g2 = ⟨g.game, fr.x, fr.y, g.width, g.height⟩ := by simpa using hg1
          exact rectDisj_symm (hsplit_node f hf1)
    · -- placed pairwise
      refine List.pairwise_append.mpr ⟨hgg, List.pairwise_singleton _ _, ?_⟩
      intro g1 hg1 b hb
      obtain rfl : b = ⟨g.game, fr.x, fr.y, g.width, g.height⟩ := by simpa using hb
      exact rectDisj_mono_right hsub_node (rectDisj_symm (hfg fr hfrmem g1 hg1))
    · -- free boxes
      intro f hf
      rcases List.mem_append.mp hf with hf1 | hf1
      · exact hfb f ((List.eraseIdx_sublist _ _).mem hf1)
      · exact inBox_of_subRect (hsplit_sub f hf1) hfr_box
    · -- placed boxes
      intro g2 hg2
      rcases List.mem_append.mp hg2 with hg1 | hg1
      · exact hgb g2 hg1
      · obtain rfl : g2 = ⟨g.game, fr.x, fr.y, g.width, g.height⟩ := by simpa using hg1
        exact inBox_of_subRect hsub_node hfr_box

theorem naiveFold_spec {W H : ℚ} :
    ∀ (items : List SizedGame) (st : List Rect × List LayoutGame),
      PackInv 0 W H st.1 st.2 →
      (∀ g ∈ items, 0 ≤ g.width ∧ 0 ≤ g.height) →
      PackInv 0 W H (items.foldl naiveStep st).1 (items.foldl naiveStep st).2 := by
  intro items
  induction items with
  | nil => intro st hinv _; exact hinv
  | cons g rest ih =>
    intro st hinv hdims
    simp only [List.foldl_cons]
    exact ih (naiveStep st g)
      (naiveStep_spec hinv (hdims g (List.mem_cons_self _ _)).1
        (hdims g (List.mem_cons_self _ _)).2)
      (fun x hx => hdims x (List.mem_cons_of_mem _ hx))

theorem naivePack_spec (items : List SizedGame) (W H : ℚ)
    (hdims : ∀ g ∈ items, 0 ≤ g.width ∧ 0 ≤ g.height) :
    List.Pairwise (fun a b => RectDisj a.rect b.rect) (naivePack items W H) ∧
    (∀ g ∈ naivePack items W H, InBox 0 W H g.rect) := by
  have hinit : PackInv 0 W H [⟨0, 0, W, H⟩] [] := by
    refine ⟨List.pairwise_singleton _ _, ?_, List.Pairwise.nil, ?_, ?_⟩
    · intro f _ g hg
      simp at hg
    · intro f hf
      obtain rfl : f = ⟨0, 0, W, H⟩ := by simpa using hf
      exact ⟨le_refl _, le_refl _, by simp, by simp⟩
    · intro g hg
      simp at hg
  have := naiveFold_spec items ([⟨0, 0, W, H⟩], []) hinit hdims
  obtain ⟨_, _, h3, _, h5⟩ := this
  exact ⟨h3, h5⟩

theorem naiveLayout_spec (items : List SizedGame) (W H : ℚ)
    (hdims : ∀ g ∈ items, 0 ≤ g.width ∧ 0 ≤ g.height) :
    List.Pairwise (fun a b => RectDisj a.rect b.rect) (naiveLayout items W H) ∧
    (∀ g ∈ naiveLayout items W H, InBox 0 W H g.rect) := by
  unfold naiveLayout
  split
  · exact ⟨List.Pairwise.nil, by simp⟩
  · refine naivePack_spec _ W H ?_
    intro g hg
    exact hdims g
      ((List.mergeSort_perm items (fun a b => decide (b.height ≤ a.height))).subset hg)

/-! ### Size-model lemmas -/

theorem linearArea_eq {w : ℚ} (hw : 0 ≤ w) : linearArea w = (w : ℝ) / 5 := by
  unfold linearArea linearWidth linearHeight
  have harg : (0 : ℝ) ≤ ((w / 100 * 20 : ℚ) : ℝ) / (2 / 3) := by
    push_cast
    positivity
  have hs := Real.mul_self_sqrt harg
  push_cast at hs ⊢
  nlinarith [hs]

theorem linearArea_mono {w1 w2 : ℚ} (hw0 : 0 ≤ w1) (h12 : w1 ≤ w2) :
    linearArea w1 ≤ linearArea w2 := by
  rw [linearArea_eq hw0, linearArea_eq (le_trans hw0 h12)]
  have hc : (w1 : ℝ) ≤ (w2 : ℝ) := by exact_mod_cast h12
  linarith

theorem tierMult_ge_one (maxTime w : Int) : 1 ≤ tierMult maxTime w := by
  simp only [tierMult]
  split
  · exact le_trans (by norm_num) (le_max_right _ 2)
  · exact le_refl 1

theorem tierMult_mono {maxTime : Int} {w1 w2 : Int} (h12 : w1 ≤ w2) :
    tierMult maxTime w1 ≤ tierMult maxTime w2 := by
  simp only [tierMult]
  have hsq : Real.sqrt ((max w1 1 : Int) : ℝ) ≤ Real.sqrt ((max w2 1 : Int) : ℝ) := by
    refine Real.sqrt_le_sqrt ?_
    exact_mod_cast max_le_max h12 (le_refl 1)
  have hnorm : Real.sqrt ((max w1 1 : Int) : ℝ) / Real.sqrt ((maxTime : Int) : ℝ) ≤
      Real.sqrt ((max w2 1 : Int) : ℝ) / Real.sqrt ((maxTime : Int) : ℝ) := by
    rcases le_or_lt (Real.sqrt ((maxTime : Int) : ℝ)) 0 with hm | hm
    · have hz : Real.sqrt ((maxTime : Int) : ℝ) = 0 :=
        le_antisymm hm (Real.sqrt_nonneg _)
      simp [hz]
    · exact (div_le_div_right hm).mpr hsq
  have hround : round (Real.sqrt ((max w1 1 : Int) : ℝ) /
        Real.sqrt ((maxTime : Int) : ℝ) * 8) ≤
      round (Real.sqrt ((max w2 1 : Int) : ℝ) / Real.sqrt ((maxTime : Int) : ℝ) * 8) := by
    rw [round_eq, round_eq]
    refine Int.floor_le_floor ?_
    nlinarith [hnorm]
  have hmax : max 1 (round (Real.sqrt ((max w1 1 : Int) : ℝ) /
        Real.sqrt ((maxTime : Int) : ℝ) * 8)) ≤
      max 1 (round (Real.sqrt ((max w2 1 : Int) : ℝ) /
        Real.sqrt ((maxTime : Int) : ℝ) * 8)) :=
    max_le_max (le_refl 1) hround
  by_cases h1 : 10 ≤ (w1 : ℚ) / 60
  · have h2 : 10 ≤ (w2 : ℚ) / 60 := by
      have hc : (w1 : ℚ) ≤ (w2 : ℚ) := by exact_mod_cast h12
      linarith
    rw [if_pos h1, if_pos h2]
    exact max_le_max hmax (le_refl 2)
  · rw [if_neg h1]
    split
    · exact le_trans (by norm_num) (le_max_right _ 2)
    · exact le_refl 1

theorem tierMult_clamp {maxTime w : Int} (hw : w ≤ 0) :
    tierMult maxTime w = 1 ∧ tierMult maxTime 1 = 1 := by
  constructor
  · have hcond : ¬(10 ≤ (w : ℚ) / 60) := by
      intro hcon
      have hc : (w : ℚ) ≤ 0 := by exact_mod_cast hw
      linarith
    simp only [tierMult, if_neg hcond]
  · have hcond : ¬(10 ≤ ((1 : Int) : ℚ) / 60) := by norm_num
    simp only [tierMult, if_neg hcond]

theorem baseUnitWH_ge_one (W : ℚ) (gridCols : Int) :
    1 ≤ (baseUnitWH W gridCols).1 ∧ 1 ≤ (baseUnitWH W gridCols).2 :=
  ⟨le_max_left _ _, le_max_left _ _⟩

/-! ### Empty-input behavior -/

theorem phase2_nil (bw bh : ℚ) :
    ∀ (snapshot free : List Rect),
      (phase2 bw bh snapshot (free, ([] : List PrepItem), ([] : List LayoutGame))).2.2 = [] ∧
      (phase2 bw bh snapshot (free, ([] : List PrepItem), ([] : List LayoutGame))).2.1 = [] := by
  intro snapshot
  induction snapshot with
  | nil =>
    intro free
    simp [phase2]
  | cons fr rest ih =>
    intro free
    obtain ⟨new, hres, hperm, _, _, hmem⟩ :=
      @fillRectWithShelf_spec bw bh fr free [] [] (by simp)
    have hremnil : (fillRectWithShelf bw bh fr (free, [], [])).2.1 = [] := by
      cases hrem : (fillRectWithShelf bw bh fr (free, [], [])).2.1 with
      | nil => rfl
      | cons a t =>
        have := hmem a (by rw [hrem]; exact List.mem_cons_self _ _)
        simp at this
    have hnewnil : new = [] := by
      rw [hremnil] at hperm
      have hp2 : (gamesOfLayout new ++ ([] : List SteamGame)).Perm [] := by
        simpa [gamesOfPrep] using hperm
      have hp3 := hp2.eq_nil
      simpa [gamesOfLayout] using hp3
    have hresnil : (fillRectWithShelf bw bh fr (free, [], [])).2.2 = [] := by
      rw [hres, hnewnil]
      simp
    have hfold : phase2 bw bh (fr :: rest) (free, ([] : List PrepItem),
        ([] : List LayoutGame)) =
        phase2 bw bh rest (fillRectWithShelf bw bh fr (free, [], [])) := by
      simp [phase2]
    rw [hfold]
    rcases hst : fillRectWithShelf bw bh fr (free, [], []) with ⟨f2, r2, g2⟩
    rw [hst] at hremnil hresnil
    dsimp only at hremnil hresnil
    subst hremnil
    subst hresnil
    exact ih f2

theorem tieredLayout_nil (W H bw bh : ℚ) : tieredLayout W H bw bh [] = ([], []) := by
  unfold tieredLayout phase1
  simp only [List.mergeSort_nil, List.foldl_nil]
  rw [Prod.mk.injEq]
  refine ⟨(phase2_nil bw bh _ _).1, (phase2_nil bw bh _ _).2⟩

theorem naiveLayout_nil (W H : ℚ) : naiveLayout [] W H = [] := by
  simp [naiveLayout]

theorem rndJitter_bounds (a : Int) : 0 ≤ rndJitter a ∧ rndJitter a ≤ 1 := by
  constructor
  · exact abs_nonneg _
  · unfold rndJitter
    exact abs_le.mpr ⟨Real.neg_one_le_sin _, Real.sin_le_one _⟩

/-! ### Claim theorems -/

/-- C1: in every run of the packer on a list of sized items and a
canvas, any two distinct placed rectangles have non-intersecting
interiors (they may share edges); this holds for the tiered
free-rectangle + shelf pipeline and for the naive best-area-fit
variant. -/
theorem c1_no_overlap (W H bw bh : ℚ) (prepared : List PrepItem) (items : List SizedGame)
    (hdimsP : ∀ x ∈ prepared, 0 ≤ x.width ∧ 0 ≤ x.height)
    (hH : 100 ≤ H)
    (hdimsI : ∀ g ∈ items, 0 ≤ g.width ∧ 0 ≤ g.height) :
    List.Pairwise (fun a b => RectDisj a.rect b.rect) (tieredLayout W H bw bh prepared).1 ∧
    List.Pairwise (fun a b => RectDisj a.rect b.rect) (naiveLayout items W H) :=
  ⟨(tieredLayout_spec W H bw bh prepared hdimsP hH).1,
    (naiveLayout_spec items W H hdimsI).1⟩

theorem c1_no_overlap_witness :
    ((∀ x ∈ ([⟨⟨1, "a", 600⟩, 2, 200, 300, 0⟩,
        ⟨⟨2, "b", 60⟩, 1, 100, 150, 1 / 2⟩] : List PrepItem),
        0 ≤ x.width ∧ 0 ≤ x.height) ∧
      (100 : ℚ) ≤ 1920 ∧
      (∀ g ∈ ([⟨⟨1, "a", 600⟩, 80, 120⟩, ⟨⟨2, "b", 60⟩, 40, 60⟩] : List SizedGame),
        0 ≤ g.width ∧ 0 ≤ g.height)) ∧
    (List.Pairwise (fun a b => RectDisj a.rect b.rect)
        (tieredLayout 1080 1920 100 150
          [⟨⟨1, "a", 600⟩, 2, 200, 300, 0⟩, ⟨⟨2, "b", 60⟩, 1, 100, 150, 1 / 2⟩]).1 ∧
      List.Pairwise (fun a b => RectDisj a.rect b.rect)
        (naiveLayout [⟨⟨1, "a", 600⟩, 80, 120⟩, ⟨⟨2, "b", 60⟩, 40, 60⟩] 1080 1920)) :=
  ⟨⟨by norm_num, by norm_num, by norm_num⟩,
    c1_no_overlap 1080 1920 100 150
      [⟨⟨1, "a", 600⟩, 2, 200, 300, 0⟩, ⟨⟨2, "b", 60⟩, 1, 100, 150, 1 / 2⟩]
      [⟨⟨1, "a", 600⟩, 80, 120⟩, ⟨⟨2, "b", 60⟩, 40, 60⟩]
      (by norm_num) (by norm_num) (by norm_num)⟩

/-- C2: every placed rectangle lies entirely inside the canvas:
`0 ≤ x`, `0 ≤ y`, `x + width ≤ W`, `y + height ≤ H`, in both packer
variants. -/
theorem c2_in_bounds (W H bw bh : ℚ) (prepared : List PrepItem) (items : List SizedGame)
    (hdimsP : ∀ x ∈ prepared, 0 ≤ x.width ∧ 0 ≤ x.height)
    (hH : 100 ≤ H)
    (hdimsI : ∀ g ∈ items, 0 ≤ g.width ∧ 0 ≤ g.height) :
    (∀ g ∈ (tieredLayout W H bw bh prepared).1,
      0 ≤ g.x ∧ 0 ≤ g.y ∧ g.x + g.width ≤ W ∧ g.y + g.height ≤ H) ∧
    (∀ g ∈ naiveLayout items W H,
      0 ≤ g.x ∧ 0 ≤ g.y ∧ g.x + g.width ≤ W ∧ g.y + g.height ≤ H) := by
  constructor
  · intro g hg
    have hb := (tieredLayout_spec W H bw bh prepared hdimsP hH).2.1 g hg
    obtain ⟨b1, b2, b3, b4⟩ := hb
    simp only [LayoutGame.rect] at b1 b2 b3 b4
    have h60 := headerInfoHeight_ge H
    exact ⟨b1, by linarith, b3, b4⟩
  · intro g hg
    have hb := (naiveLayout_spec items W H hdimsI).2 g hg
    obtain ⟨b1, b2, b3, b4⟩ := hb
    simp only [LayoutGame.rect] at b1 b2 b3 b4
    exact ⟨b1, b2, b3, b4⟩

theorem c2_in_bounds_witness :
    ((∀ x ∈ ([⟨⟨1, "a", 600⟩, 2, 200, 300, 0⟩] : List PrepItem),
        0 ≤ x.width ∧ 0 ≤ x.height) ∧
      (100 : ℚ) ≤ 1920 ∧
      (∀ g ∈ ([⟨⟨1, "a", 600⟩, 80, 120⟩] : List SizedGame),
        0 ≤ g.width ∧ 0 ≤ g.height)) ∧
    ((∀ g ∈ (tieredLayout 1080 1920 100 150 [⟨⟨1, "a", 600⟩, 2, 200, 300, 0⟩]).1,
        0 ≤ g.x ∧ 0 ≤ g.y ∧ g.x + g.width ≤ 1080 ∧ g.y + g.height ≤ 1920) ∧
      (∀ g ∈ naiveLayout [⟨⟨1, "a", 600⟩, 80, 120⟩] 1080 1920,
        0 ≤ g.x ∧ 0 ≤ g.y ∧ g.x + g.width ≤ 1080 ∧ g.y + g.height ≤ 1920)) :=
  ⟨⟨by norm_num, by norm_num, by norm_num⟩,
    c2_in_bounds 1080 1920 100 150 [⟨⟨1, "a", 600⟩, 2, 200, 300, 0⟩]
      [⟨⟨1, "a", 600⟩, 80, 120⟩] (by norm_num) (by norm_num) (by norm_num)⟩

/-- C3 (as stated) is false: the naive variant breaks best-area-fit
ties by the earliest position in the free list, not by smaller `y` then
smaller `x`.  Here both free rectangles are eligible with equal score,
and the scan returns the first one, whose `y` is larger. -/
theorem c3_counterexample :
    naiveChoose [⟨0, 10, 5, 5⟩, ⟨0, 0, 5, 5⟩] 5 5 = some (0, ⟨0, 10, 5, 5⟩) ∧
    naiveScore 5 5 ⟨0, 10, 5, 5⟩ = naiveScore 5 5 ⟨0, 0, 5, 5⟩ ∧
    (5 : ℚ) ≤ (⟨0, 0, 5, 5⟩ : Rect).width ∧ (5 : ℚ) ≤ (⟨0, 0, 5, 5⟩ : Rect).height ∧
    (⟨0, 0, 5, 5⟩ : Rect).y < (⟨0, 10, 5, 5⟩ : Rect).y := by
  refine ⟨?_, ?_, ?_, ?_, ?_⟩
  · norm_num [naiveChoose, naiveChooseGo, naiveUpd, naiveScore]
  · norm_num [naiveScore]
  · norm_num
  · norm_num
  · norm_num

/-- C3 (amended): the naive packer considers exactly the free
rectangles with `item.width ≤ rect.width` and
`item.height ≤ rect.height`, selects one minimizing
`score = rect.area − item.area`, breaking ties by the earliest position
in the free-rectangle list; an item with no eligible rectangle is
silently skipped by the naive variant, while the tiered variant defers
it to the overflow list. -/
theorem c3_amended :
    (∀ (free : List Rect) (w h : ℚ) (i : Nat) (fr : Rect),
      naiveChoose free w h = some (i, fr) →
      ∃ hi : i < free.length,
        fr = free[i] ∧ (w ≤ fr.width ∧ h ≤ fr.height) ∧
        (∀ fr' ∈ free, (w ≤ fr'.width ∧ h ≤ fr'.height) →
          naiveScore w h fr ≤ naiveScore w h fr') ∧
        (∀ (k : Nat) (hk : k < free.length), k < i →
          (w ≤ (free[k]).width ∧ h ≤ (free[k]).height) →
          naiveScore w h fr < naiveScore w h (free[k]))) ∧
    (∀ (free : List Rect) (w h : ℚ),
      naiveChoose free w h = none ↔ ∀ fr ∈ free, ¬(w ≤ fr.width ∧ h ≤ fr.height)) ∧
    (∀ (st : List Rect × List LayoutGame) (g : SizedGame),
      naiveChoose st.1 g.width g.height = none → naiveStep st g = st) ∧
    (∀ (W : ℚ) (st : Phase1St) (it : PrepItem),
      chooseBestRect W st.free it.width it.height = none →
      phase1Step W st it = { st with overflow := st.overflow ++ [it] }) := by
  refine ⟨?_, ?_, ?_, ?_⟩
  · intro free w h i fr hc
    exact naiveChoose_spec hc
  · intro free w h
    exact naiveChoose_none_iff
  · intro st g hnone
    simp [naiveStep, hnone]
  · intro W st it hnone
    simp [phase1Step, hnone]

theorem c3_amended_witness :
    naiveChoose [⟨0, 0, 6, 6⟩, ⟨0, 0, 5, 5⟩] 5 5 = some (1, ⟨0, 0, 5, 5⟩) ∧
    (∃ hi : 1 < ([⟨0, 0, 6, 6⟩, ⟨0, 0, 5, 5⟩] : List Rect).length,
      (⟨0, 0, 5, 5⟩ : Rect) = ([⟨0, 0, 6, 6⟩, ⟨0, 0, 5, 5⟩] : List Rect)[1] ∧
      ((5 : ℚ) ≤ (⟨0, 0, 5, 5⟩ : Rect).width ∧ (5 : ℚ) ≤ (⟨0, 0, 5, 5⟩ : Rect).height) ∧
      (∀ fr' ∈ ([⟨0, 0, 6, 6⟩, ⟨0, 0, 5, 5⟩] : List Rect),
        ((5 : ℚ) ≤ fr'.width ∧ (5 : ℚ) ≤ fr'.height) →
        naiveScore 5 5 ⟨0, 0, 5, 5⟩ ≤ naiveScore 5 5 fr') ∧
      (∀ (k : Nat) (hk : k < ([⟨0, 0, 6, 6⟩, ⟨0, 0, 5, 5⟩] : List Rect).length), k < 1 →
        ((5 : ℚ) ≤ (([⟨0, 0, 6, 6⟩, ⟨0, 0, 5, 5⟩] : List Rect)[k]).width ∧
          (5 : ℚ) ≤ (([⟨0, 0, 6, 6⟩, ⟨0, 0, 5, 5⟩] : List Rect)[k]).height) →
        naiveScore 5 5 ⟨0, 0, 5, 5⟩ <
          naiveScore 5 5 (([⟨0, 0, 6, 6⟩, ⟨0, 0, 5, 5⟩] : List Rect)[k]))) :=
  ⟨by norm_num [naiveChoose, naiveChooseGo, naiveUpd, naiveScore],
    c3_amended.1 [⟨0, 0, 6, 6⟩, ⟨0, 0, 5, 5⟩] 5 5 1 ⟨0, 0, 5, 5⟩
      (by norm_num [naiveChoose, naiveChooseGo, naiveUpd, naiveScore])⟩

/-- C4 (as stated) is false for the naive variant: when a 4×4 item is
placed into a 10×10 free rectangle, the emitted right remainder is the
full-height rectangle 6×10, not the claimed `(x+w, y, rect.w−w, item.h)`
= 6×4 rectangle. -/
theorem c4_counterexample :
    naiveSplit ⟨0, 0, 10, 10⟩ 4 4 = [⟨4, 0, 6, 10⟩, ⟨0, 4, 4, 6⟩] ∧
    (⟨4, 0, 6, 4⟩ : Rect) ∉ naiveSplit ⟨0, 0, 10, 10⟩ 4 4 ∧
    (4 : ℚ) < 10 := by
  refine ⟨?_, ?_, by norm_num⟩
  · norm_num [naiveSplit]
  · norm_num [naiveSplit, Rect.mk.injEq]

/-- C4 (amended): in the tiered splitter, when an item of positive
height is placed at the corner of a consumed free rectangle of positive
width, the rectangle is removed and replaced by a right remainder
`(x+w, y, rect.w−w, item.h)` exactly when `item.w < rect.w`, and a
bottom remainder `(x, y+h, rect.w, rect.h−item.h)` (width-choice: the
full rectangle width) exactly when `item.h < rect.h`; `addFreeRect`
never emits a zero-area rectangle.  (The naive variant instead emits a
full-height right remainder and uses the item width for the
bottom remainder, with no zero-area guard.) -/
theorem c4_amended (free : List Rect) (fr placed : Rect)
    (hx : placed.x = fr.x) (hy : placed.y = fr.y)
    (hw : placed.width ≤ fr.width) (hh : placed.height ≤ fr.height)
    (hph : 0 < placed.height) (hfw : 0 < fr.width) :
    splitFreeRect free fr placed =
      pruneFreeRects ((free.erase fr) ++
        (if placed.width < fr.width then
          [⟨fr.x + placed.width, fr.y, fr.width - placed.width, placed.height⟩] else []) ++
        (if placed.height < fr.height then
          [⟨fr.x, fr.y + placed.height, fr.width, fr.height - placed.height⟩] else [])) ∧
    (∀ (l : List Rect) (r r' : Rect), r' ∈ addFreeRect l r →
      r' ∈ l ∨ (0 < r'.width ∧ 0 < r'.height)) := by
  constructor
  · simp only [splitFreeRect]
    rw [hx, hy]
    by_cases hcw : placed.width < fr.width
    · have e1 : addFreeRect (free.erase fr)
          ⟨fr.x + placed.width, fr.y, fr.width - placed.width, placed.height⟩ =
          free.erase fr ++
            [⟨fr.x + placed.width, fr.y, fr.width - placed.width, placed.height⟩] := by
        rw [addFreeRect, if_neg]
        push_neg
        exact ⟨by dsimp only; linarith, by dsimp only; linarith⟩
      rw [e1, if_pos hcw]
      by_cases hch : placed.height < fr.height
      · have e2 : addFreeRect (free.erase fr ++
            [⟨fr.x + placed.width, fr.y, fr.width - placed.width, placed.height⟩])
            ⟨fr.x, fr.y + placed.height, fr.width, fr.height - placed.height⟩ =
            free.erase fr ++
              [⟨fr.x + placed.width, fr.y, fr.width - placed.width, placed.height⟩] ++
              [⟨fr.x, fr.y + placed.height, fr.width, fr.height - placed.height⟩] := by
          rw [addFreeRect, if_neg]
          push_neg
          exact ⟨by dsimp only; linarith, by dsimp only; linarith⟩
        rw [e2, if_pos hch]
      · have e2 : addFreeRect (free.erase fr ++
            [⟨fr.x + placed.width, fr.y, fr.width - placed.width, placed.height⟩])
            ⟨fr.x, fr.y + placed.height, fr.width, fr.height - placed.height⟩ =
            free.erase fr ++
              [⟨fr.x + placed.width, fr.y, fr.width - placed.width, placed.height⟩] := by
          rw [addFreeRect, if_pos]
          right
          dsimp only
          linarith [not_lt.mp hch]
        rw [e2, if_neg hch]
        simp
    · have e1 : addFreeRect (free.erase fr)
          ⟨fr.x + placed.width, fr.y, fr.width - placed.width, placed.height⟩ =
          free.erase fr := by
        rw [addFreeRect, if_pos]
        left
        dsimp only
        linarith [not_lt.mp hcw]
      rw [e1, if_neg hcw]
      by_cases hch : placed.height < fr.height
      · have e2 : addFreeRect (free.erase fr)
            ⟨fr.x, fr.y + placed.height, fr.width, fr.height - placed.height⟩ =
            free.erase fr ++
              [⟨fr.x, fr.y + placed.height, fr.width, fr.height - placed.height⟩] := by
          rw [addFreeRect, if_neg]
          push_neg
          exact ⟨by dsimp only; linarith, by dsimp only; linarith⟩
        rw [e2, if_pos hch]
        simp
      · have e2 : addFreeRect (free.erase fr)
            ⟨fr.x, fr.y + placed.height, fr.width, fr.height - placed.height⟩ =
            free.erase fr := by
          rw [addFreeRect, if_pos]
          right
          dsimp only
          linarith [not_lt.mp hch]
        rw [e2, if_neg hch]
        simp
  · intro l r r' hr
    rcases mem_addFreeRect hr with hm | ⟨rfl, hp⟩
    · exact Or.inl hm
    · exact Or.inr hp

theorem c4_amended_witness :
    ((⟨0, 0, 4, 4⟩ : Rect).x = (⟨0, 0, 10, 10⟩ : Rect).x ∧
      (⟨0, 0, 4, 4⟩ : Rect).y = (⟨0, 0, 10, 10⟩ : Rect).y ∧
      (⟨0, 0, 4, 4⟩ : Rect).width ≤ (⟨0, 0, 10, 10⟩ : Rect).width ∧
      (⟨0, 0, 4, 4⟩ : Rect).height ≤ (⟨0, 0, 10, 10⟩ : Rect).height ∧
      (0 : ℚ) < (⟨0, 0, 4, 4⟩ : Rect).height ∧ (0 : ℚ) < (⟨0, 0, 10, 10⟩ : Rect).width) ∧
    splitFreeRect [⟨0, 0, 10, 10⟩] ⟨0, 0, 10, 10⟩ ⟨0, 0, 4, 4⟩ =
      pruneFreeRects (([⟨0, 0, 10, 10⟩] : List Rect).erase ⟨0, 0, 10, 10⟩ ++
        (if (⟨0, 0, 4, 4⟩ : Rect).width < (⟨0, 0, 10, 10⟩ : Rect).width then
          [⟨(0 : ℚ) + 4, 0, 10 - 4, 4⟩] else []) ++
        (if (⟨0, 0, 4, 4⟩ : Rect).height < (⟨0, 0, 10, 10⟩ : Rect).height then
          [⟨0, (0 : ℚ) + 4, 10, 10 - 4⟩] else [])) :=
  ⟨⟨rfl, rfl, by norm_num, by norm_num, by norm_num, by norm_num⟩,
    (c4_amended [⟨0, 0, 10, 10⟩] ⟨0, 0, 10, 10⟩ ⟨0, 0, 4, 4⟩ rfl rfl
      (by norm_num) (by norm_num) (by norm_num) (by norm_num)).1⟩

/-- C5: the layout is deterministic — both variants are pure functions
of `(items, canvas)`, so two runs on equal inputs give identical
results; the ordering jitter is the pure function
`|sin(appid * 1337.123)|` of the item id alone, bounded in `[0, 1]`. -/
theorem c5_determinism :
    (∀ (W H bw bh : ℚ) (prepared : List PrepItem),
      tieredLayout W H bw bh prepared = tieredLayout W H bw bh prepared) ∧
    (∀ (items : List SizedGame) (W H : ℚ),
      naiveLayout items W H = naiveLayout items W H) ∧
    (∀ a b : Int, a = b → rndJitter a = rndJitter b) ∧
    (∀ a : Int, 0 ≤ rndJitter a ∧ rndJitter a ≤ 1) := by
  refine ⟨fun W H bw bh prepared => rfl, fun items W H => rfl, ?_, rndJitter_bounds⟩
  intro a b hab
  rw [hab]

theorem c5_determinism_witness :
    ((42 : Int) = 42) ∧ rndJitter 42 = rndJitter 42 :=
  ⟨rfl, c5_determinism.2.2.1 42 42 rfl⟩

/-- C6: the size model is monotone in weight — the linear model's area
is non-decreasing, and the tiered model's area
`(mult·bw)·(mult·bh)` is non-decreasing in weight because the tier
multiplier is. -/
theorem c6_monotone_sizing (w1 w2 : ℚ) (z1 z2 maxTime : Int) (bw bh : ℚ)
    (hw0 : 0 ≤ w1) (h12 : w1 < w2) (hz : z1 < z2)
    (hbw : 0 ≤ bw) (hbh : 0 ≤ bh) :
    linearArea w1 ≤ linearArea w2 ∧
    ((tierMult maxTime z1 : ℚ) * bw) * ((tierMult maxTime z1 : ℚ) * bh) ≤
      ((tierMult maxTime z2 : ℚ) * bw) * ((tierMult maxTime z2 : ℚ) * bh) := by
  constructor
  · exact linearArea_mono hw0 (le_of_lt h12)
  · have hm := @tierMult_mono maxTime z1 z2 (le_of_lt hz)
    have h1 := tierMult_ge_one maxTime z1
    have hmq : ((tierMult maxTime z1 : Int) : ℚ) ≤ ((tierMult maxTime z2 : Int) : ℚ) := by
      exact_mod_cast hm
    have h1q : (1 : ℚ) ≤ ((tierMult maxTime z1 : Int) : ℚ) := by exact_mod_cast h1
    have hb1 : (0 : ℚ) ≤ (tierMult maxTime z1 : ℚ) * bw := by nlinarith
    have hb2 : (tierMult maxTime z1 : ℚ) * bw ≤ (tierMult maxTime z2 : ℚ) * bw := by
      nlinarith
    have hb3 : (0 : ℚ) ≤ (tierMult maxTime z1 : ℚ) * bh := by nlinarith
    have hb4 : (tierMult maxTime z1 : ℚ) * bh ≤ (tierMult maxTime z2 : ℚ) * bh := by
      nlinarith
    nlinarith

theorem c6_monotone_sizing_witness :
    ((0 : ℚ) ≤ 60 ∧ (60 : ℚ) < 600 ∧ (0 : Int) < 600 ∧ (0 : ℚ) ≤ 100 ∧ (0 : ℚ) ≤ 150) ∧
    (linearArea 60 ≤ linearArea 600 ∧
      ((tierMult 600 0 : ℚ) * 100) * ((tierMult 600 0 : ℚ) * 150) ≤
        ((tierMult 600 600 : ℚ) * 100) * ((tierMult 600 600 : ℚ) * 150)) :=
  ⟨⟨by norm_num, by norm_num, by norm_num, by norm_num, by norm_num⟩,
    c6_monotone_sizing 60 600 0 600 600 100 150 (by norm_num) (by norm_num)
      (by norm_num) (by norm_num) (by norm_num)⟩

/-- C7 (as stated) is false for the linear size model of the naive
variant: an item with weight 0 receives width 0 and height 0 — a
zero-area rectangle is handed to the packer. -/
theorem c7_counterexample : linearWidth 0 = 0 ∧ linearHeight 0 = 0 := by
  have h0 : linearHeight 0 = 0 := by
    unfold linearHeight
    norm_num
  refine ⟨?_, h0⟩
  unfold linearWidth
  rw [h0]
  ring

/-- C7 (amended): in the tiered size model every weight — including 0
and negative weights, which behave as the clamped minimum 1 — receives
tier multiplier at least 1, the quantized base cell is at least 1×1, so
every item gets strictly positive width and height; the linear model of
the naive variant, however, produces a zero-area rectangle at
weight 0. -/
theorem c7_amended (maxTime w gridCols : Int) (W bw bh : ℚ)
    (hbw : 1 ≤ bw) (hbh : 1 ≤ bh) :
    1 ≤ tierMult maxTime w ∧
    (w ≤ 0 → tierMult maxTime w = 1 ∧ tierMult maxTime 1 = 1) ∧
    1 ≤ (baseUnitWH W gridCols).1 ∧ 1 ≤ (baseUnitWH W gridCols).2 ∧
    0 < (tierMult maxTime w : ℚ) * bw ∧ 0 < (tierMult maxTime w : ℚ) * bh := by
  have h1 := tierMult_ge_one maxTime w
  have h1q : (1 : ℚ) ≤ ((tierMult maxTime w : Int) : ℚ) := by exact_mod_cast h1
  refine ⟨h1, fun hw => tierMult_clamp hw, (baseUnitWH_ge_one W gridCols).1,
    (baseUnitWH_ge_one W gridCols).2, by nlinarith, by nlinarith⟩

theorem c7_amended_witness :
    ((1 : ℚ) ≤ 1 ∧ (1 : ℚ) ≤ 1) ∧
    (1 ≤ tierMult 600 0 ∧
      ((0 : Int) ≤ 0 → tierMult 600 0 = 1 ∧ tierMult 600 1 = 1) ∧
      1 ≤ (baseUnitWH 1080 5).1 ∧ 1 ≤ (baseUnitWH 1080 5).2 ∧
      0 < (tierMult 600 0 : ℚ) * 1 ∧ 0 < (tierMult 600 0 : ℚ) * 1) :=
  ⟨⟨le_refl 1, le_refl 1⟩,
    c7_amended 600 0 5 1080 1 1 (le_refl 1) (le_refl 1)⟩

/-- C8: the multiset of item ids across the packer output — items
placed in either phase plus items dropped — equals the multiset of
input ids; if the input ids are distinct no placed id is duplicated. -/
theorem c8_conservation (W H bw bh : ℚ) (prepared : List PrepItem)
    (hdims : ∀ x ∈ prepared, 0 ≤ x.width ∧ 0 ≤ x.height)
    (hH : 100 ≤ H) :
    (((tieredLayout W H bw bh prepared).1.map (fun g => g.game.appid)) ++
      ((tieredLayout W H bw bh prepared).2.map (fun x => x.game.appid))).Perm
      (prepared.map (fun x => x.game.appid)) ∧
    ((prepared.map (fun x => x.game.appid)).Nodup →
      (((tieredLayout W H bw bh prepared).1.map (fun g => g.game.appid))).Nodup) := by
  have hperm := (tieredLayout_spec W H bw bh prepared hdims hH).2.2
  have hmap := hperm.map (fun g => g.appid)
  have hA : (((tieredLayout W H bw bh prepared).1.map (fun g => g.game.appid)) ++
      ((tieredLayout W H bw bh prepared).2.map (fun x => x.game.appid))).Perm
      (prepared.map (fun x => x.game.appid)) := by
    simpa [gamesOfLayout, gamesOfPrep, List.map_map, Function.comp] using hmap
  refine ⟨hA, ?_⟩
  intro hnd
  have hnd2 := (hA.nodup_iff).mpr hnd
  exact hnd2.of_append_left

theorem c8_conservation_witness :
    ((∀ x ∈ ([⟨⟨1, "a", 600⟩, 2, 200, 300, 0⟩,
        ⟨⟨2, "b", 60⟩, 1, 100, 150, 1 / 2⟩] : List PrepItem),
        0 ≤ x.width ∧ 0 ≤ x.height) ∧
      (100 : ℚ) ≤ 1920) ∧
    (((tieredLayout 1080 1920 100 150
        [⟨⟨1, "a", 600⟩, 2, 200, 300, 0⟩,
          ⟨⟨2, "b", 60⟩, 1, 100, 150, 1 / 2⟩]).1.map (fun g => g.game.appid)) ++
      ((tieredLayout 1080 1920 100 150
        [⟨⟨1, "a", 600⟩, 2, 200, 300, 0⟩,
          ⟨⟨2, "b", 60⟩, 1, 100, 150, 1 / 2⟩]).2.map (fun x => x.game.appid))).Perm
      (([⟨⟨1, "a", 600⟩, 2, 200, 300, 0⟩,
        ⟨⟨2, "b", 60⟩, 1, 100, 150, 1 / 2⟩] : List PrepItem).map (fun x => x.game.appid)) :=
  ⟨⟨by norm_num, by norm_num⟩,
    (c8_conservation 1080 1920 100 150
      [⟨⟨1, "a", 600⟩, 2, 200, 300, 0⟩, ⟨⟨2, "b", 60⟩, 1, 100, 150, 1 / 2⟩]
      (by norm_num) (by norm_num)).1⟩

/-- C9: on an empty item list the tiered layout and the naive layout
both return the empty list, and the canvas sizer returns the default
minimum canvas 1080×1920; no error paths exist. -/
theorem c9_empty_input :
    calculateCanvasDimensions 0 = (1080, 1920) ∧
    (∀ W H bw bh : ℚ, tieredLayout W H bw bh [] = ([], [])) ∧
    (∀ W H : ℚ, naiveLayout [] W H = []) := by
  refine ⟨?_, tieredLayout_nil, naiveLayout_nil⟩
  simp [calculateCanvasDimensions]

/-- C10: in the tiered variant every placed rectangle starts at or
below the reserved header strip:
`headerInfoHeight H = max(60, round(min(0.06·H, 100)))` and
`headerInfoHeight H ≤ y` for every placed game. -/
theorem c10_header_strip (W H bw bh : ℚ) (prepared : List PrepItem)
    (hdims : ∀ x ∈ prepared, 0 ≤ x.width ∧ 0 ≤ x.height)
    (hH : 100 ≤ H) :
    headerInfoHeight H = max 60 ((round (min (6 / 100 * H) 100) : ℤ) : ℚ) ∧
    ∀ g ∈ (tieredLayout W H bw bh prepared).1, headerInfoHeight H ≤ g.y := by
  refine ⟨rfl, ?_⟩
  intro g hg
  have hb := (tieredLayout_spec W H bw bh prepared hdims hH).2.1 g hg
  simpa [LayoutGame.rect, InBox] using hb.2.1

theorem c10_header_strip_witness :
    ((∀ x ∈ ([⟨⟨1, "a", 600⟩, 2, 200, 300, 0⟩] : List PrepItem),
        0 ≤ x.width ∧ 0 ≤ x.height) ∧ (100 : ℚ) ≤ 1920) ∧
    (∀ g ∈ (tieredLayout 1080 1920 100 150 [⟨⟨1, "a", 600⟩, 2, 200, 300, 0⟩]).1,
      headerInfoHeight 1920 ≤ g.y) :=
  ⟨⟨by norm_num, by norm_num⟩,
    (c10_header_strip 1080 1920 100 150 [⟨⟨1, "a", 600⟩, 2, 200, 300, 0⟩]
      (by norm_num) (by norm_num)).2⟩

end Packer
